import Mathlib

/-!
Verification of the column-mapping core of the kendal-contact-importer
repository: text normalization (`normalizeString`), bigram similarity,
content-pattern classifiers, the `FieldMapper` scoring engine
(`mapColumns`), the duplicate-suggestion resolver
(`resolveDuplicateSuggestions`), and the agent-email detector
(`detectAgentEmailColumn`).

Modelling conventions:
* JavaScript strings are modelled as Lean `String` / `List Char`; the
  ASCII fragment of `toLowerCase`, `trim`, `\s`, `\w` is used, matching
  the data the engine actually handles.
* JavaScript `number` arithmetic on scores is exact integer arithmetic
  (`Int`, with `Int.floor` for `Math.floor`); fractional confidence
  scores are exact rationals (`Rat`).  Where IEEE-754 double rounding is
  observable it is modelled exactly: the constant `1 - EMPTY_THRESHOLD`
  of `patternValidators.ts` is its exact double value
  `900719925474099 / 2^53`, and every multiplication, addition and
  division of the agent-email detector's combined-score expression is
  computed through an explicit binary64 rounding function
  (`roundDouble`), since e.g. `85 * 0.7 = 59.49999999999999` in doubles
  and `Math.round` of it is `59`, not `60`.
* The host-environment predicates `new Date(v)` parses / `parseFloat`
  yields a finite number are abstracted as boolean-valued parameters
  (`dateParses`, `numFinite`).
-/

namespace KendalCI

/-- ASCII/JS whitespace characters (the `\s` class and `trim`). -/
def isSpaceJS (c : Char) : Bool :=
  c == ' ' || c == '\t' || c == '\n' || c == '\r' || c == '\x0b' || c == '\x0c'

/-- The JS `\w` class: `[A-Za-z0-9_]`. -/
def isWordChar (c : Char) : Bool :=
  c.isAlpha || c.isDigit || c == '_'

/-- Characters collapsed by `normalizeString`: the class `[_\-\s]`. -/
def isSepChar (c : Char) : Bool :=
  c == '_' || c == '-' || isSpaceJS c

/-- JS `String.prototype.trim` on a character list: drop whitespace
from both ends (here: right end first, then left end). -/
def trimJS (l : List Char) : List Char :=
  ((l.reverse.dropWhile isSpaceJS).reverse).dropWhile isSpaceJS

/-- One maximal run of `[_\-\s]+` characters is replaced by a single
space: the `.replace(/[_\-\s]+/g, " ")` step of `normalizeString`. -/
def collapseSeps : List Char → List Char
  | [] => []
  | [c] => if isSepChar c then [' '] else [c]
  | c1 :: c2 :: rest =>
    if isSepChar c1 && isSepChar c2 then collapseSeps (c2 :: rest)
    else (if isSepChar c1 then ' ' else c1) :: collapseSeps (c2 :: rest)

/-- The `.replace(/[^\w\s]/g, "")` step of `normalizeString`. -/
def stripNonWord (l : List Char) : List Char :=
  l.filter (fun c => isWordChar c || isSpaceJS c)

/-- `normalizeString` from `synonymDictionary.ts`: lowercase, trim,
collapse runs of `[_\-\s]` into one space, strip remaining characters
that are neither word characters nor spaces. -/
def normalizeString (s : String) : String :=
  ⟨stripNonWord (collapseSeps (trimJS (s.data.map Char.toLower)))⟩

/-- JS `a.includes(b)`: `b` occurs as a contiguous substring of `a`. -/
def jsIncludes (s sub : String) : Bool :=
  decide (sub.data <:+: s.data)

/-- JS `String.prototype.trim` on a `String`. -/
def jsTrim (s : String) : String :=
  ⟨trimJS s.data⟩

/-- `FieldMapper.getBigrams`: the list of overlapping two-character
substrings (`value.substring(i, i + 2)` for `i < length - 1`). -/
def getBigrams : List Char → List (Char × Char)
  | a :: b :: rest => (a, b) :: getBigrams (b :: rest)
  | _ => []

/-- `FieldMapper.calculateStringSimilarity`: twice the number of bigrams
of `str1` that occur among the bigrams of `str2` (a multiset membership
filter, not a set intersection), divided by the total bigram count. -/
def calculateStringSimilarity (str1 str2 : String) : ℚ :=
  if str1.data.isEmpty || str2.data.isEmpty then 0
  else
    let bigrams1 := getBigrams str1.data
    let bigrams2 := getBigrams str2.data
    if bigrams1.isEmpty || bigrams2.isEmpty then 0
    else
      let inter := bigrams1.filter (fun bg => bigrams2.contains bg)
      (2 * inter.length : ℚ) / (bigrams1.length + bigrams2.length)

/-- One piece of an anchored regular expression: between `lo` and `hi`
(unbounded when `none`) characters from the class `cls`. -/
structure RegexPiece where
  lo : Nat
  hi : Option Nat
  cls : Char → Bool

/-- An anchored concatenation of `RegexPiece`s matches `cs` iff `cs`
splits into consecutive blocks, one per piece, each block's length
within the piece's bounds and all its characters in the piece's class.
This is exactly the match semantics of the regexes used by
`patternValidators.ts` (which have no alternation). -/
def matchPieces : List RegexPiece → List Char → Bool
  | [], cs => cs.isEmpty
  | p :: ps, cs =>
    (List.range (min (p.hi.getD cs.length) cs.length + 1)).any fun k =>
      decide (p.lo ≤ k) && (cs.take k).all p.cls && matchPieces ps (cs.drop k)

/-- The email regex `^[^\s@]+@[^\s@]+\.[^\s@]+$` of
`validateEmailPattern`. -/
def emailPieces : List RegexPiece :=
  [⟨1, none, fun c => !(isSpaceJS c || c == '@')⟩,
   ⟨1, some 1, fun c => c == '@'⟩,
   ⟨1, none, fun c => !(isSpaceJS c || c == '@')⟩,
   ⟨1, some 1, fun c => c == '.'⟩,
   ⟨1, none, fun c => !(isSpaceJS c || c == '@')⟩]

/-- `emailRegex.test s`. -/
def emailRegexTest (s : String) : Bool :=
  matchPieces emailPieces s.data

/-- The separator class `[-\s\.]` of the phone regex. -/
def isPhoneSep (c : Char) : Bool :=
  c == '-' || c == '.' || isSpaceJS c

/-- The phone regex
`^[\+]?[(]?[0-9]{1,4}[)]?[-\s\.]?[(]?[0-9]{1,4}[)]?[-\s\.]?[0-9]{1,4}[-\s\.]?[0-9]{1,9}$`
of `validatePhonePattern`. -/
def phonePieces : List RegexPiece :=
  [⟨0, some 1, fun c => c == '+'⟩,
   ⟨0, some 1, fun c => c == '('⟩,
   ⟨1, some 4, Char.isDigit⟩,
   ⟨0, some 1, fun c => c == ')'⟩,
   ⟨0, some 1, isPhoneSep⟩,
   ⟨0, some 1, fun c => c == '('⟩,
   ⟨1, some 4, Char.isDigit⟩,
   ⟨0, some 1, fun c => c == ')'⟩,
   ⟨0, some 1, isPhoneSep⟩,
   ⟨1, some 4, Char.isDigit⟩,
   ⟨0, some 1, isPhoneSep⟩,
   ⟨1, some 9, Char.isDigit⟩]

/-- `phoneRegex.test s`. -/
def phoneRegexTest (s : String) : Bool :=
  matchPieces phonePieces s.data

/-- `getNonEmpty` from `patternValidators.ts`: keep values that are
truthy and have nonempty trim (equivalently: nonempty trim). -/
def getNonEmpty (values : List String) : List String :=
  values.filter (fun v => !(jsTrim v).isEmpty)

/-- The exact IEEE-754 double value of `1 - EMPTY_THRESHOLD`
(`1 - 0.9` computed in doubles), namely `1/10 - 2^(-53)/5`, about
`0.09999999999999998`.  This is strictly below the real `0.1`. -/
def oneMinusEmptyThreshold : ℚ := 900719925474099 / 9007199254740992

/-- `shouldSkip` from `patternValidators.ts`. -/
def shouldSkip (nonEmptyCount totalCount : ℕ) : Bool :=
  totalCount == 0 ||
    decide ((nonEmptyCount : ℚ) / (totalCount : ℚ) ≤ oneMinusEmptyThreshold)

/-- `validateEmailPattern`. -/
def validateEmailPattern (values : List String) : ℚ :=
  let nonEmpty := getNonEmpty values
  if shouldSkip nonEmpty.length values.length then 0
  else
    ((nonEmpty.filter (fun v => emailRegexTest (jsTrim v))).length : ℚ) /
      (nonEmpty.length : ℚ)

/-- The digit-count cleanup of `validatePhonePattern`:
`value.replace(/[\s\-\(\)\.]/g, "")`. -/
def phoneCleaned (v : String) : List Char :=
  v.data.filter (fun c => !(isSpaceJS c || c == '-' || c == '(' || c == ')' || c == '.'))

/-- `validatePhonePattern`. -/
def validatePhonePattern (values : List String) : ℚ :=
  let nonEmpty := getNonEmpty values
  if shouldSkip nonEmpty.length values.length then 0
  else
    ((nonEmpty.filter (fun v =>
        phoneRegexTest (jsTrim v) && decide (10 ≤ (phoneCleaned v).length))).length : ℚ) /
      (nonEmpty.length : ℚ)

/-- `validateDatePattern`; the host-defined predicate
`!Number.isNaN(new Date(value).getTime())` is the parameter
`dateParses`. -/
def validateDatePattern (dateParses : String → Bool) (values : List String) : ℚ :=
  let nonEmpty := getNonEmpty values
  if shouldSkip nonEmpty.length values.length then 0
  else
    ((nonEmpty.filter dateParses).length : ℚ) / (nonEmpty.length : ℚ)

/-- The comma cleanup of `validateNumberPattern`:
`value.replace(/,/g, "")`. -/
def stripCommas (v : String) : String :=
  ⟨v.data.filter (fun c => !(c == ','))⟩

/-- `validateNumberPattern`; the host-defined predicate
`Number.isFinite(parseFloat(s))` is the parameter `numFinite`. -/
def validateNumberPattern (numFinite : String → Bool) (values : List String) : ℚ :=
  let nonEmpty := getNonEmpty values
  if shouldSkip nonEmpty.length values.length then 0
  else
    ((nonEmpty.filter (fun v => numFinite (stripCommas v))).length : ℚ) /
      (nonEmpty.length : ℚ)

/-- `ContactFieldType` from the mapping `types` module. -/
inductive ContactFieldType where
  | text
  | number
  | phone
  | email
  | datetime
deriving DecidableEq

/-- `ContactField`. -/
structure ContactField where
  id : String
  label : String
  type : ContactFieldType
  core : Bool
deriving DecidableEq

/-- The confidence tier of a `FieldMatch`. -/
inductive Confidence where
  | high
  | medium
  | low
deriving DecidableEq

/-- `FieldMatch`. -/
structure FieldMatch where
  systemFieldId : String
  systemFieldLabel : String
  confidence : Confidence
  score : ℤ
  matchReason : String
deriving DecidableEq

/-- `ColumnMapping`. -/
structure ColumnMapping where
  csvColumn : String
  csvIndex : ℤ
  selectedField : Option String
  suggestedMatches : List FieldMatch
  isCustomField : Bool
  sampleData : List String
deriving DecidableEq

/-- `FIELD_SYNONYMS` from `synonymDictionary.ts` (lookup with `?? []`). -/
def FIELD_SYNONYMS (fieldId : String) : List String :=
  if fieldId == "firstName" then
    ["first", "fname", "given name", "forename", "first name", "given", "name first"]
  else if fieldId == "lastName" then
    ["last", "lname", "surname", "family name", "last name", "family", "name last"]
  else if fieldId == "phone" then
    ["mobile", "cell", "telephone", "contact number", "phone number",
     "mobile number", "cell phone", "phone no", "tel", "contact no"]
  else if fieldId == "email" then
    ["e-mail", "email address", "mail", "e mail", "email addr", "electronic mail"]
  else if fieldId == "agentUid" then
    ["agent", "assigned to", "owner", "sales rep", "agent email",
     "assigned agent", "account owner", "sales agent", "representative"]
  else if fieldId == "createdOn" then
    ["created", "date created", "created date", "creation date", "date added", "added on"]
  else []

/-- `FULL_NAME_TOKENS`. -/
def FULL_NAME_TOKENS : List String := ["full name", "fullname"]

/-- `FieldMapper.getConfidence` (thresholds 75 and 50). -/
def getConfidence (score : ℤ) : Confidence :=
  if 75 ≤ score then .high else if 50 ≤ score then .medium else .low

/-- `FieldMapper.getPatternReason`. -/
def getPatternReason (t : ContactFieldType) (patternScore : ℚ) : Option String :=
  if patternScore ≤ 0 then none
  else
    let percent := toString ⌊patternScore * 100⌋
    match t with
    | .email => some ("Strong email pattern (" ++ percent ++ "% match)")
    | .phone => some ("Strong phone pattern (" ++ percent ++ "% match)")
    | .datetime => some ("Strong date pattern (" ++ percent ++ "% match)")
    | .number => some ("Strong numeric pattern (" ++ percent ++ "% match)")
    | .text => none

/-- The loop body of `FieldMapper.getSynonymMatchScore`: first synonym
equal to the normalized header scores 75, first containment match
scores 65. -/
def synonymHit (normalizedHeader : String) : List String → Option (ℚ × String)
  | [] => none
  | synonym :: rest =>
    let normalizedSynonym := normalizeString synonym
    if normalizedSynonym == normalizedHeader then
      some (75, "Synonym match: \"" ++ synonym ++ "\"")
    else if jsIncludes normalizedHeader normalizedSynonym ||
        jsIncludes normalizedSynonym normalizedHeader then
      some (65, "Synonym match: \"" ++ synonym ++ "\"")
    else synonymHit normalizedHeader rest

/-- `FieldMapper.getSynonymMatchScore`. -/
def getSynonymMatchScore (normalizedHeader : String) (fieldId : String) :
    Option (ℚ × String) :=
  synonymHit normalizedHeader (FIELD_SYNONYMS fieldId)

/-- `FieldMapper.validateDataPattern` (first 100 sample values; the
generic `text` type scores a constant `0.5`). -/
def validateDataPattern (dateParses numFinite : String → Bool)
    (data : List String) (fieldType : ContactFieldType) : ℚ :=
  let sample := data.take 100
  match fieldType with
  | .email => validateEmailPattern sample
  | .phone => validatePhonePattern sample
  | .datetime => validateDatePattern dateParses sample
  | .number => validateNumberPattern numFinite sample
  | .text => 1/2

/-- `FieldMapper.calculateScoreContext`, returning
`(baseReason, baseScore, patternScore)`.  Thresholds `0.6`, `0.8`,
`0.3` are the rationals `3/5`, `4/5`, `3/10`; `Math.floor` is
`Int.floor`. -/
def calculateScoreContext (dateParses numFinite : String → Bool)
    (header : String) (columnData : List String) (field : ContactField) :
    Option String × ℚ × ℚ :=
  let normalizedHeader := normalizeString header
  let normalizedLabel := normalizeString field.label
  if normalizedHeader == "" then (none, 0, 0)
  else
    let base : ℚ × Option String :=
      if normalizedHeader == normalizedLabel then (100, some "Exact header match")
      else if jsIncludes normalizedHeader normalizedLabel ||
          jsIncludes normalizedLabel normalizedHeader then
        (80, some "Similar header match")
      else
        match getSynonymMatchScore normalizedHeader field.id with
        | some (s, r) => (s, some r)
        | none => (0, none)
    let fuzzy : ℚ × Option String :=
      if base.1 == 0 then
        let similarity := calculateStringSimilarity normalizedHeader normalizedLabel
        if 3/5 < similarity then ((⌊similarity * 60⌋ : ℤ), some "Similar header name")
        else base
      else base
    let patternScore := validateDataPattern dateParses numFinite columnData field.type
    let final : ℚ × Option String :=
      if 4/5 < patternScore then
        if 40 ≤ fuzzy.1 then (min 100 (fuzzy.1 + 20), fuzzy.2)
        else (50, getPatternReason field.type patternScore)
      else if 50 ≤ fuzzy.1 ∧ 0 < patternScore then
        if patternScore < 3/10 then ((⌊fuzzy.1 * (6/10)⌋ : ℤ), fuzzy.2)
        else fuzzy
      else fuzzy
    (final.2, final.1, patternScore)

/-- `FieldMapper.createMatch`. -/
def createMatch (dateParses numFinite : String → Bool)
    (header : String) (columnData : List String) (field : ContactField) :
    Option FieldMatch :=
  let normalizedHeader := normalizeString header
  if FULL_NAME_TOKENS.any (fun token => jsIncludes normalizedHeader token) &&
      (field.id == "firstName" || field.id == "lastName") then
    none
  else
    let ctx := calculateScoreContext dateParses numFinite header columnData field
    if ctx.2.1 ≤ 0 then none
    else
      let score : ℤ := ⌊ctx.2.1⌋
      some
        { systemFieldId := field.id
          systemFieldLabel := field.label
          confidence := getConfidence score
          score := score
          matchReason :=
            (ctx.1.getD ((getPatternReason field.type ctx.2.2).getD "Possible match")) }

/-- The descending-score order used by `findMatches`'s
`sort((a, b) => b.score - a.score)`. -/
def matchLE (a b : FieldMatch) : Prop := b.score ≤ a.score

instance : DecidableRel matchLE := fun a b => inferInstanceAs (Decidable (b.score ≤ a.score))

instance : IsTotal FieldMatch matchLE :=
  ⟨fun a b => (le_total b.score a.score).imp id id⟩

instance : IsTrans FieldMatch matchLE :=
  ⟨fun _ _ _ h1 h2 => le_trans h2 h1⟩

/-- `FieldMapper.findMatches`: score every catalog field, drop the null
results, sort descending by score (a stable sort, like JS `sort`). -/
def findMatches (fields : List ContactField) (dateParses numFinite : String → Bool)
    (header : String) (columnData : List String) : List FieldMatch :=
  List.insertionSort matchLE
    (fields.filterMap (createMatch dateParses numFinite header columnData))

/-- The loop of `FieldMapper.mapColumns`: one column mapping per header,
threading the `autoAssignedIds` set. -/
def mapColumnsGo (fields : List ContactField) (dateParses numFinite : String → Bool)
    (sampleData : List (List String)) :
    List String → ℕ → List String → List ColumnMapping
  | [], _, _ => []
  | header :: rest, index, autoAssignedIds =>
    let columnData := sampleData.map (fun row => row.getD index "")
    let matchList := findMatches fields dateParses numFinite header columnData
    let pick : Option String × List String :=
      match matchList.head? with
      | some bestMatch =>
        if bestMatch.confidence = Confidence.high &&
            !autoAssignedIds.contains bestMatch.systemFieldId then
          (some bestMatch.systemFieldId, bestMatch.systemFieldId :: autoAssignedIds)
        else (none, autoAssignedIds)
      | none => (none, autoAssignedIds)
    { csvColumn := header
      csvIndex := (index : ℤ)
      selectedField := pick.1
      suggestedMatches := matchList.take 3
      isCustomField :=
        match matchList.head? with
        | none => true
        | some bestMatch => bestMatch.score < 40
      sampleData := columnData.take 5 } ::
      mapColumnsGo fields dateParses numFinite sampleData rest (index + 1) pick.2

/-- `FieldMapper.mapColumns`. -/
def mapColumns (fields : List ContactField) (dateParses numFinite : String → Bool)
    (headers : List String) (sampleData : List (List String)) : List ColumnMapping :=
  mapColumnsGo fields dateParses numFinite sampleData headers 0 []

/-- `AgentEmailDetectionResult` from `agentEmailDetector.ts`. -/
structure AgentEmailDetectionResult where
  header : String
  index : ℕ
  score : ℤ
  headerScore : ℤ
  patternScore : ℚ
deriving DecidableEq

/-- `EXACT_HEADER_MATCHES`. -/
def EXACT_HEADER_MATCHES : List String :=
  ["agent email", "agentemail", "agent e mail", "agent_email",
   "assigned agent email", "assigned agent", "assigned_to_email",
   "assigned_to_agent", "assigned email", "agent contact email",
   "agentcontactemail", "advisor email", "advisor_email",
   "representative email", "rep email", "sales agent email",
   "account owner email"]

/-- `AGENT_TOKENS`. -/
def AGENT_TOKENS : List String :=
  ["agent", "advisor", "rep", "representative", "owner", "assignee",
   "assigned", "manager", "realtor", "broker"]

/-- `EMAIL_TOKENS`. -/
def EMAIL_TOKENS : List String := ["email", "mail", "e", "address"]

/-- `MINIMUM_CONFIDENCE`. -/
def MINIMUM_CONFIDENCE : ℤ := 45

/-- Lowercase ASCII alphanumeric, the class `[a-z0-9]` used by
`tokenize`'s split. -/
def isLowerAlnum (c : Char) : Bool :=
  c.isLower || c.isDigit

/-- `tokenize`: lowercase, split on runs of `[^a-z0-9]+`, trim each
token, drop empty ones.  (Splitting on single non-alphanumeric
characters and then dropping empty segments is equivalent to splitting
on maximal runs.) -/
def tokenize (header : String) : List String :=
  let lowered : String := ⟨header.data.map Char.toLower⟩
  ((lowered.split (fun c => !isLowerAlnum c)).map jsTrim).filter (fun t => !t.isEmpty)

/-- `scoreHeader` from `agentEmailDetector.ts`. -/
def scoreHeader (header : String) : ℤ :=
  let normalized := normalizeString header
  if normalized == "" then 0
  else if EXACT_HEADER_MATCHES.contains normalized then 95
  else
    let tokens := tokenize header
    let hasAgentToken := tokens.any (fun t => AGENT_TOKENS.contains t)
    let hasEmailToken := tokens.any (fun t => EMAIL_TOKENS.contains t)
    if hasAgentToken && hasEmailToken then 85
    else if hasAgentToken && jsIncludes normalized "mail" then 75
    else if jsIncludes normalized "assigned" && jsIncludes normalized "agent" then 70
    else if hasAgentToken then 55
    else 0

/-- `getColumnSamples`: the trimmed, non-empty entries of one column. -/
def getColumnSamples (rows : List (List String)) (columnIndex : ℕ) : List String :=
  (rows.map (fun row => jsTrim (row.getD columnIndex ""))).filter
    (fun v => !v.isEmpty)

/-- JS `Math.round` (half-integers round toward positive infinity). -/
def jsRound (x : ℚ) : ℤ := ⌊x + 1/2⌋

/-- Round a rational to the nearest integer, ties to the even one: the
significand rounding of IEEE-754 round-to-nearest, ties-to-even. -/
def rne (x : ℚ) : ℤ :=
  let f := ⌊x⌋
  if x - f < 1/2 then f
  else if 1/2 < x - f then f + 1
  else if f % 2 = 0 then f else f + 1

/-- Round a rational to the nearest IEEE-754 binary64 value
(round-to-nearest, ties-to-even): scale `|q|` by the unit in the last
place at its exponent `⌊log₂ |q|⌋` (clamped at `-1022`, which also
gives the subnormal granularity `2^(-1074)`), round the significand,
and scale back.  Overflow is not modelled: every value arising in this
development is far below `2^1024`. -/
def roundDouble (q : ℚ) : ℚ :=
  if q = 0 then 0
  else
    let ulp : ℚ := 2 ^ (max (Int.log 2 |q|) (-1022) - 52)
    (if q < 0 then -1 else 1) * rne (|q| / ulp) * ulp

/-- IEEE-754 double multiplication: the exact product, correctly
rounded. -/
def doubleMul (a b : ℚ) : ℚ := roundDouble (a * b)

/-- IEEE-754 double addition: the exact sum, correctly rounded. -/
def doubleAdd (a b : ℚ) : ℚ := roundDouble (a + b)

/-- The IEEE-754 double denoted by the source literal `0.7`
(`0.6999999999999999555910790149937383830547332763671875`). -/
def double07 : ℚ := 3152519739159347 / 2 ^ 52

/-- The IEEE-754 double denoted by the source literal `0.3`
(`0.299999999999999988897769753748434595763683319091796875`). -/
def double03 : ℚ := 5404319552844595 / 2 ^ 54

/-- The pattern score stored in the detection result:
`samples.length ? validateEmailPattern(samples) : 0`.  The division
`matches.length / nonEmpty.length` inside `validateEmailPattern` is
performed in doubles, so its exact quotient is correctly rounded. -/
def patternScoreAt (rowMatrix : List (List String)) (index : ℕ) : ℚ :=
  let samples := getColumnSamples rowMatrix index
  if samples.isEmpty then 0 else roundDouble (validateEmailPattern samples)

/-- The per-column combined score of `detectAgentEmailColumn`:
`Math.round(headerScore * 0.7 + patternScore * 100 * 0.3)`, with each
multiplication and the addition performed in binary64 (`Math.round`
itself returns the integer nearest the double's exact value, ties
toward positive infinity). -/
def combinedScoreAt (rowMatrix : List (List String)) (header : String)
    (index : ℕ) : ℤ :=
  let headerScore := scoreHeader header
  let patternScore := patternScoreAt rowMatrix index
  jsRound (doubleAdd (doubleMul (headerScore : ℚ) double07)
    (doubleMul (doubleMul patternScore 100) double03))

/-- The `headers.forEach` loop of `detectAgentEmailColumn`: `index` is
the index of the first element of `rest` in the full header list,
`best` the running `bestMatch`. -/
def detectGo (rowMatrix : List (List String)) :
    List String → ℕ → Option AgentEmailDetectionResult →
      Option AgentEmailDetectionResult
  | [], _, best => best
  | header :: rest, index, best =>
    let best' :=
      if (jsTrim header).isEmpty then best
      else
        let combinedScore := combinedScoreAt rowMatrix header index
        if combinedScore < MINIMUM_CONFIDENCE then best
        else
          match best with
          | none =>
            some ⟨header, index, combinedScore, scoreHeader header,
              patternScoreAt rowMatrix index⟩
          | some b =>
            if b.score < combinedScore then
              some ⟨header, index, combinedScore, scoreHeader header,
                patternScoreAt rowMatrix index⟩
            else best
    detectGo rowMatrix rest (index + 1) best'

/-- `detectAgentEmailColumn`. -/
def detectAgentEmailColumn (headers : List String)
    (rowMatrix : List (List String)) : Option AgentEmailDetectionResult :=
  if headers.isEmpty then none
  else detectGo rowMatrix headers 0 none

/-- The head of a mapping's suggestion list
(`mapping.suggestedMatches[0]`). -/
def topMatch (m : ColumnMapping) : Option FieldMatch :=
  m.suggestedMatches.head?

/-- The field id of a mapping's top suggestion. -/
def topFieldId (m : ColumnMapping) : Option String :=
  (topMatch m).map FieldMatch.systemFieldId

/-- `a.suggestedMatches[0]?.score ?? 0`. -/
def topScore (m : ColumnMapping) : ℤ :=
  match topMatch m with
  | some pm => pm.score
  | none => 0

/-- The comparator of `resolveDuplicateSuggestions`'s group sort:
score descending, then `csvIndex` ascending. -/
def groupLE (a b : ColumnMapping) : Prop :=
  topScore b < topScore a ∨ (topScore a = topScore b ∧ a.csvIndex ≤ b.csvIndex)

instance : DecidableRel groupLE := fun _ _ =>
  inferInstanceAs (Decidable (_ ∨ _))

instance : IsTotal ColumnMapping groupLE := by
  refine ⟨fun a b => ?_⟩
  rcases lt_trichotomy (topScore a) (topScore b) with h | h | h
  · exact Or.inr (Or.inl h)
  · rcases le_total a.csvIndex b.csvIndex with h2 | h2
    · exact Or.inl (Or.inr ⟨h, h2⟩)
    · exact Or.inr (Or.inr ⟨h.symm, h2⟩)
  · exact Or.inl (Or.inl h)

instance : IsTrans ColumnMapping groupLE := by
  refine ⟨fun a b c h1 h2 => ?_⟩
  rcases h1 with h1 | ⟨h1, h1i⟩ <;> rcases h2 with h2 | ⟨h2, h2i⟩
  · exact Or.inl (h2.trans h1)
  · exact Or.inl (h2 ▸ h1)
  · exact Or.inl (h1 ▸ h2)
  · exact Or.inr ⟨h1.trans h2, h1i.trans h2i⟩

/-- Sorting a duplicate group, as JS's stable `Array.sort` with the
(consistent) comparator above. -/
def sortGroup (g : List ColumnMapping) : List ColumnMapping :=
  List.insertionSort groupLE g

/-- Appending a mapping to its group in the insertion-ordered map
(`grouped.get(...)` / `group.push(...)` / `grouped.set(...)`). -/
def addToGroup (acc : List (String × List ColumnMapping)) (f : String)
    (m : ColumnMapping) : List (String × List ColumnMapping) :=
  match acc with
  | [] => [(f, [m])]
  | (k, g) :: rest =>
    if k = f then (k, g ++ [m]) :: rest else (k, g) :: addToGroup rest f m

/-- The grouping loop of `resolveDuplicateSuggestions`: mappings without
a primary suggestion are skipped; keys appear in first-occurrence
order, each group in input order. -/
def groupByTop (mappings : List ColumnMapping) :
    List (String × List ColumnMapping) :=
  mappings.foldl
    (fun acc m =>
      match m.suggestedMatches.head? with
      | none => acc
      | some primaryMatch => addToGroup acc primaryMatch.systemFieldId m)
    []

/-- The `duplicates` list of `resolveDuplicateSuggestions`: groups with
more than one member, in key-insertion order. -/
def duplicatesOf (mappings : List ColumnMapping) :
    List (String × List ColumnMapping) :=
  (groupByTop mappings).filter (fun p => 1 < p.2.length)

/-- The `winnerByField` map: for each contested field, the `csvIndex` of
the first element of the sorted group (`group[0]` after the sort). -/
def winnerByFieldOf (mappings : List ColumnMapping) : List (String × ℤ) :=
  (duplicatesOf mappings).filterMap
    (fun p => ((sortGroup p.2).head?).map (fun w => (p.1, w.csvIndex)))

/-- The `loserIndices` set: the `csvIndex`es of `group.slice(1)` of each
contested sorted group. -/
def loserIndicesOf (mappings : List ColumnMapping) : List ℤ :=
  (duplicatesOf mappings).flatMap
    (fun p => ((sortGroup p.2).tail).map ColumnMapping.csvIndex)

/-- The per-mapping body of the final `mappings.map` of
`resolveDuplicateSuggestions`. -/
def resolveStep (winnerByField : List (String × ℤ)) (mapping : ColumnMapping) :
    ColumnMapping :=
  match mapping.suggestedMatches.head? with
  | none => mapping
  | some primaryMatch =>
    match winnerByField.lookup primaryMatch.systemFieldId with
    | none => mapping
    | some winnerIndex =>
      if mapping.csvIndex = winnerIndex then
        if primaryMatch.confidence = Confidence.high ∧
            mapping.selectedField ≠ some primaryMatch.systemFieldId then
          { mapping with selectedField := some primaryMatch.systemFieldId }
        else mapping
      else
        { mapping with
          selectedField :=
            if mapping.selectedField = some primaryMatch.systemFieldId then
              none
            else mapping.selectedField
          suggestedMatches := []
          isCustomField := false }

/-- `resolveDuplicateSuggestions` from the import modal component. -/
def resolveDuplicateSuggestions (mappings : List ColumnMapping) :
    List ColumnMapping :=
  if (duplicatesOf mappings).isEmpty then mappings
  else if (loserIndicesOf mappings).isEmpty then mappings
  else mappings.map (resolveStep (winnerByFieldOf mappings))

/-! ### Properties of the text normalizer -/

theorem char_toNat_ofNat_valid (n : Nat) (h : n.isValidChar) :
    (Char.ofNat n).toNat = n := by
  rw [Char.ofNat, dif_pos h]
  simp [Char.ofNatAux, Char.toNat, UInt32.toNat, BitVec.toNat_ofNatLt]

theorem toLower_not_upper (c : Char) :
    ¬(c.toLower.toNat ≥ 65 ∧ c.toLower.toNat ≤ 90) := by
  rw [Char.toLower]
  by_cases h : c.toNat ≥ 65 ∧ c.toNat ≤ 90
  · rw [if_pos h]
    have hv : (c.toNat + 32).isValidChar := Or.inl (by omega)
    rw [char_toNat_ofNat_valid _ hv]
    omega
  · rw [if_neg h]
    exact h

theorem toLower_idem (c : Char) :
    Char.toLower (Char.toLower c) = Char.toLower c := by
  conv_lhs => rw [Char.toLower]
  rw [if_neg (toLower_not_upper c)]

theorem head?_dropWhile_false {p : Char → Bool} {l : List Char} {c : Char}
    (h : (l.dropWhile p).head? = some c) : p c = false := by
  induction l with
  | nil => simp [List.dropWhile] at h
  | cons a l ih =>
    rw [List.dropWhile_cons] at h
    by_cases hp : p a
    · rw [if_pos hp] at h
      exact ih h
    · rw [if_neg hp] at h
      simp at h
      subst h
      simpa using hp

theorem getLast?_dropWhile {p : Char → Bool} {l : List Char} {c : Char}
    (h : (l.dropWhile p).getLast? = some c) : l.getLast? = some c := by
  induction l with
  | nil => simp [List.dropWhile] at h
  | cons a l ih =>
    rw [List.dropWhile_cons] at h
    by_cases hp : p a
    · rw [if_pos hp] at h
      have h2 := ih h
      cases l with
      | nil => simp at h2
      | cons b m => rw [List.getLast?_cons_cons]; exact h2
    · rw [if_neg hp] at h
      exact h

theorem mem_trimJS {l : List Char} {c : Char} (h : c ∈ trimJS l) : c ∈ l := by
  rw [trimJS] at h
  have h1 := (List.dropWhile_sublist isSpaceJS).mem h
  rw [List.mem_reverse] at h1
  have h2 := (List.dropWhile_sublist isSpaceJS).mem h1
  rwa [List.mem_reverse] at h2

theorem head?_trimJS_false {l : List Char} {c : Char}
    (h : (trimJS l).head? = some c) : isSpaceJS c = false :=
  head?_dropWhile_false h

theorem getLast?_trimJS_false {l : List Char} {c : Char}
    (h : (trimJS l).getLast? = some c) : isSpaceJS c = false := by
  rw [trimJS] at h
  have h1 := getLast?_dropWhile h
  rw [List.getLast?_reverse] at h1
  exact head?_dropWhile_false h1

theorem dropWhile_eq_self_of_head {p : Char → Bool} {l : List Char}
    (h : ∀ c, l.head? = some c → p c = false) : l.dropWhile p = l := by
  cases l with
  | nil => rfl
  | cons a l =>
    rw [List.dropWhile_cons, if_neg]
    simp [h a rfl]

theorem trimJS_eq_self {l : List Char}
    (hh : ∀ c, l.head? = some c → isSpaceJS c = false)
    (hl : ∀ c, l.getLast? = some c → isSpaceJS c = false) : trimJS l = l := by
  rw [trimJS]
  have h1 : l.reverse.dropWhile isSpaceJS = l.reverse := by
    apply dropWhile_eq_self_of_head
    intro c hc
    rw [List.head?_reverse] at hc
    exact hl c hc
  rw [h1, List.reverse_reverse]
  exact dropWhile_eq_self_of_head hh

theorem mem_collapseSeps {l : List Char} {c : Char} (h : c ∈ collapseSeps l) :
    c = ' ' ∨ (c ∈ l ∧ isSepChar c = false) := by
  induction l with
  | nil => simp [collapseSeps] at h
  | cons a l ih =>
    cases l with
    | nil =>
      rw [collapseSeps] at h
      by_cases hs : isSepChar a
      · rw [if_pos hs] at h
        simp at h
        exact Or.inl h
      · rw [if_neg hs] at h
        simp at h
        subst h
        exact Or.inr ⟨by simp, by simpa using hs⟩
    | cons b m =>
      rw [collapseSeps] at h
      by_cases hs : (isSepChar a && isSepChar b) = true
      · rw [if_pos hs] at h
        rcases ih h with h1 | ⟨h1, h2⟩
        · exact Or.inl h1
        · exact Or.inr ⟨List.mem_cons_of_mem a h1, h2⟩
      · rw [if_neg hs] at h
        rcases List.mem_cons.mp h with h1 | h1
        · by_cases hsa : isSepChar a
          · rw [if_pos hsa] at h1
            exact Or.inl h1
          · rw [if_neg hsa] at h1
            subst h1
            exact Or.inr ⟨by simp, by simpa using hsa⟩
        · rcases ih h1 with h2 | ⟨h2, h3⟩
          · exact Or.inl h2
          · exact Or.inr ⟨List.mem_cons_of_mem a h2, h3⟩

theorem collapseSeps_cons_of_not_sep {c : Char} {l : List Char}
    (h : isSepChar c = false) : collapseSeps (c :: l) = c :: collapseSeps l := by
  cases l with
  | nil => simp [collapseSeps, h]
  | cons b m => simp [collapseSeps, h]

theorem collapseSeps_ne_nil {l : List Char} (h : l ≠ []) :
    collapseSeps l ≠ [] := by
  induction l with
  | nil => exact absurd rfl h
  | cons a l ih =>
    cases l with
    | nil =>
      rw [collapseSeps]
      split <;> simp
    | cons b m =>
      rw [collapseSeps]
      by_cases hs : (isSepChar a && isSepChar b) = true
      · rw [if_pos hs]
        exact ih (by simp)
      · rw [if_neg hs]
        simp

theorem getLast?_collapseSeps {l : List Char} {c : Char}
    (hl : l.getLast? = some c) (hc : isSepChar c = false) :
    (collapseSeps l).getLast? = some c := by
  induction l with
  | nil => simp at hl
  | cons a l ih =>
    cases l with
    | nil =>
      simp at hl
      subst hl
      rw [collapseSeps, if_neg (by simp [hc])]
      rfl
    | cons b m =>
      rw [List.getLast?_cons_cons] at hl
      have hlast := ih hl
      rw [collapseSeps]
      by_cases hs : (isSepChar a && isSepChar b) = true
      · rw [if_pos hs]
        exact hlast
      · rw [if_neg hs]
        have hne : collapseSeps (b :: m) ≠ [] := collapseSeps_ne_nil (by simp)
        cases hcol : collapseSeps (b :: m) with
        | nil => exact absurd hcol hne
        | cons x xs =>
          rw [hcol] at hlast
          rw [List.getLast?_cons_cons]
          exact hlast

/-- The output shape of `collapseSeps`: every separator character is a
single space, and no two adjacent characters are both separators. -/
def isCollapsed : List Char → Bool
  | [] => true
  | [c] => !isSepChar c || c == ' '
  | c1 :: c2 :: rest =>
    (!isSepChar c1 || c1 == ' ') && !(isSepChar c1 && isSepChar c2) &&
      isCollapsed (c2 :: rest)

theorem head?_collapseSeps_not_sep {b : Char} {m : List Char}
    (hb : isSepChar b = false) :
    ∀ x xs, collapseSeps (b :: m) = x :: xs → isSepChar x = false := by
  intro x xs hx
  rw [collapseSeps_cons_of_not_sep hb] at hx
  rw [List.cons.injEq] at hx
  rw [← hx.1]
  exact hb

theorem isCollapsed_collapseSeps (l : List Char) :
    isCollapsed (collapseSeps l) = true := by
  induction l with
  | nil => rw [collapseSeps]; rfl
  | cons a l ih =>
    cases l with
    | nil =>
      rw [collapseSeps]
      by_cases hs : isSepChar a
      · rw [if_pos hs]; rfl
      · rw [if_neg hs]
        simp [isCollapsed, hs]
    | cons b m =>
      rw [collapseSeps]
      by_cases hs : (isSepChar a && isSepChar b) = true
      · rw [if_pos hs]
        exact ih
      · rw [if_neg hs]
        by_cases hsa : isSepChar a
        · have hsb : isSepChar b = false := by
            by_cases hB : isSepChar b
            · exact absurd (by simp [hsa, hB]) hs
            · simpa using hB
          rw [if_pos hsa]
          cases hcol : collapseSeps (b :: m) with
          | nil => exact absurd hcol (collapseSeps_ne_nil (by simp))
          | cons x xs =>
            have hx : isSepChar x = false := head?_collapseSeps_not_sep hsb x xs hcol
            rw [isCollapsed]
            rw [hcol] at ih
            simp [hx, ih]
        · rw [if_neg hsa]
          cases hcol : collapseSeps (b :: m) with
          | nil => exact absurd hcol (collapseSeps_ne_nil (by simp))
          | cons x xs =>
            rw [isCollapsed]
            rw [hcol] at ih
            simp [hsa, ih]

theorem collapseSeps_of_isCollapsed {l : List Char}
    (h : isCollapsed l = true) : collapseSeps l = l := by
  induction l with
  | nil => rfl
  | cons a l ih =>
    cases l with
    | nil =>
      rw [isCollapsed] at h
      rw [collapseSeps]
      by_cases hs : isSepChar a
      · have : a = ' ' := by
          simp [hs] at h
          exact h
        rw [if_pos hs, this]
      · rw [if_neg hs]
    | cons b m =>
      rw [isCollapsed, Bool.and_eq_true, Bool.and_eq_true] at h
      obtain ⟨⟨h1, h2a⟩, h3⟩ := h
      have h2 : isSepChar a = false ∨ isSepChar b = false := by simpa using h2a
      have hrec := ih h3
      by_cases hsa : isSepChar a
      · have ha : a = ' ' := by
          rw [Bool.or_eq_true] at h1
          rcases h1 with h1 | h1
          · rw [hsa] at h1; simp at h1
          · exact beq_iff_eq.mp h1
        have hsb : isSepChar b = false := by
          rcases h2 with h2 | h2
          · exact absurd hsa (by simp [h2])
          · exact h2
        simp [collapseSeps, hsa, hsb, hrec, ha]
      · simp [collapseSeps, hsa, hrec]

/-- A character that can appear in a `normalizeString` output: a space,
or a word character that is not a separator. -/
def goodChar (c : Char) : Prop :=
  c = ' ' ∨ (isWordChar c = true ∧ isSepChar c = false)

theorem goodChar_keep {c : Char} (h : goodChar c) :
    (isWordChar c || isSpaceJS c) = true := by
  rcases h with h | ⟨h, _⟩
  · subst h; decide
  · simp [h]

theorem mem_normalizeString {s : String} {c : Char}
    (h : c ∈ (normalizeString s).data) :
    goodChar c ∧ Char.toLower c = c := by
  have h2 : c ∈ stripNonWord (collapseSeps (trimJS (s.data.map Char.toLower))) := h
  rw [stripNonWord, List.mem_filter] at h2
  obtain ⟨hmem, hkeep⟩ := h2
  have hcol := mem_collapseSeps hmem
  constructor
  · rcases hcol with hc | ⟨_, hsep⟩
    · exact Or.inl hc
    · refine Or.inr ⟨?_, hsep⟩
      rcases Bool.or_eq_true _ _ |>.mp hkeep with hw | hsp
      · exact hw
      · exact absurd hsep (by simp [isSepChar, hsp])
  · rcases hcol with hc | ⟨hmem2, _⟩
    · subst hc; decide
    · have hmem3 := mem_trimJS hmem2
      rw [List.mem_map] at hmem3
      obtain ⟨d, _, hd⟩ := hmem3
      rw [← hd]
      exact toLower_idem d

theorem map_toLower_fixed {l : List Char}
    (h : ∀ c ∈ l, Char.toLower c = c) : l.map Char.toLower = l := by
  conv_rhs => rw [← List.map_id l]
  exact List.map_congr_left h

theorem stripNonWord_eq_self {l : List Char} (h : ∀ c ∈ l, goodChar c) :
    stripNonWord l = l :=
  List.filter_eq_self.mpr (fun c hc => goodChar_keep (h c hc))

theorem good_mem_collapse_trim {l : List Char} (h : ∀ c ∈ l, goodChar c) :
    ∀ c ∈ collapseSeps (trimJS l), goodChar c := by
  intro c hc
  rcases mem_collapseSeps hc with h1 | ⟨h1, _⟩
  · exact Or.inl h1
  · exact h c (mem_trimJS h1)

theorem fixed_mem_collapse_trim {l : List Char}
    (h : ∀ c ∈ l, Char.toLower c = c) :
    ∀ c ∈ collapseSeps (trimJS l), Char.toLower c = c := by
  intro c hc
  rcases mem_collapseSeps hc with h1 | ⟨h1, _⟩
  · subst h1; decide
  · exact h c (mem_trimJS h1)

theorem trimJS_collapse_trim {l : List Char} (h : ∀ c ∈ l, goodChar c) :
    trimJS (collapseSeps (trimJS l)) = collapseSeps (trimJS l) := by
  apply trimJS_eq_self
  · intro c hc
    cases ht : trimJS l with
    | nil => rw [ht] at hc; simp [collapseSeps] at hc
    | cons x xs =>
      have hxsp : isSpaceJS x = false := head?_trimJS_false (by rw [ht]; rfl)
      have hxgood : goodChar x := h x (mem_trimJS (ht ▸ List.mem_cons_self x xs))
      have hxsep : isSepChar x = false := by
        rcases hxgood with h1 | ⟨_, h1⟩
        · exact absurd hxsp (by simp [h1, isSpaceJS])
        · exact h1
      rw [ht, collapseSeps_cons_of_not_sep hxsep] at hc
      simp at hc
      rw [← hc]
      exact hxsp
  · intro c hc
    cases ht : (trimJS l).getLast? with
    | none =>
      rw [List.getLast?_eq_none_iff] at ht
      rw [ht] at hc
      simp [collapseSeps] at hc
    | some d =>
      have hdsp : isSpaceJS d = false := getLast?_trimJS_false ht
      have hdmem : d ∈ trimJS l := List.mem_of_getLast?_eq_some ht
      have hdgood : goodChar d := h d (mem_trimJS hdmem)
      have hdsep : isSepChar d = false := by
        rcases hdgood with h1 | ⟨_, h1⟩
        · exact absurd hdsp (by simp [h1, isSpaceJS])
        · exact h1
      rw [getLast?_collapseSeps ht hdsep] at hc
      simp at hc
      rw [← hc]
      exact hdsp

theorem normalizeString_of_good {t : String}
    (hgood : ∀ c ∈ t.data, goodChar c)
    (hfix : ∀ c ∈ t.data, Char.toLower c = c) :
    normalizeString t = ⟨collapseSeps (trimJS t.data)⟩ := by
  rw [normalizeString, map_toLower_fixed hfix]
  exact congrArg String.mk (stripNonWord_eq_self (good_mem_collapse_trim hgood))

theorem normalizeString_collapse_trim_fixpoint {t : String}
    (hgood : ∀ c ∈ t.data, goodChar c)
    (hfix : ∀ c ∈ t.data, Char.toLower c = c) :
    normalizeString ⟨collapseSeps (trimJS t.data)⟩ =
      ⟨collapseSeps (trimJS t.data)⟩ := by
  have hgood2 := good_mem_collapse_trim hgood
  have hfix2 := fixed_mem_collapse_trim hfix
  rw [normalizeString_of_good hgood2 hfix2]
  rw [trimJS_collapse_trim hgood]
  exact congrArg String.mk
    (collapseSeps_of_isCollapsed (isCollapsed_collapseSeps (trimJS t.data)))

/-! ### Claim C5: idempotence of the normalizer -/

/-- C5, counterexample: `normalizeString` is not idempotent.  Trimming
happens before separator collapsing, so the trailing underscore of
`"a_"` becomes a trailing space that a second normalization removes:
`normalizeString "a_" = "a "` but
`normalizeString (normalizeString "a_") = "a"`. -/
theorem claim5_counterexample :
    normalizeString "a_" = "a " ∧
      normalizeString (normalizeString "a_") = "a" ∧
      normalizeString (normalizeString "a_") ≠ normalizeString "a_" := by
  refine ⟨by decide, by decide, by decide⟩

/-- C5, amended: `normalizeString` is idempotent from the second
application on: for every string `s`,
`normalize (normalize (normalize s)) = normalize (normalize s)`.
(The first application can leave boundary spaces, produced from
boundary separators or from stripped punctuation, which the second
application removes; after that the result is a fixed point.) -/
theorem claim5_amended (s : String) :
    normalizeString (normalizeString (normalizeString s)) =
      normalizeString (normalizeString s) := by
  have hgood : ∀ c ∈ (normalizeString s).data, goodChar c :=
    fun c hc => (mem_normalizeString hc).1
  have hfix : ∀ c ∈ (normalizeString s).data, Char.toLower c = c :=
    fun c hc => (mem_normalizeString hc).2
  rw [normalizeString_of_good hgood hfix]
  exact normalizeString_collapse_trim_fixpoint hgood hfix

/-! ### Claim C4: range of the bigram similarity -/

theorem similarity_bounds (a b : String) :
    0 ≤ calculateStringSimilarity a b ∧ calculateStringSimilarity a b < 2 := by
  rw [calculateStringSimilarity]
  by_cases h1 : (a.data.isEmpty || b.data.isEmpty) = true
  · rw [if_pos h1]
    norm_num
  · rw [if_neg h1]
    dsimp only
    by_cases h2 : ((getBigrams a.data).isEmpty || (getBigrams b.data).isEmpty) = true
    · rw [if_pos h2]
      norm_num
    · rw [if_neg h2]
      rw [Bool.or_eq_true, not_or] at h2
      have hb1 : 1 ≤ (getBigrams a.data).length := by
        rcases Nat.eq_zero_or_pos (getBigrams a.data).length with h | h
        · exact absurd (List.isEmpty_iff.mpr (List.length_eq_zero.mp h))
            (by simpa using h2.1)
        · exact h
      have hb2 : 1 ≤ (getBigrams b.data).length := by
        rcases Nat.eq_zero_or_pos (getBigrams b.data).length with h | h
        · exact absurd (List.isEmpty_iff.mpr (List.length_eq_zero.mp h))
            (by simpa using h2.2)
        · exact h
      have hI : ((getBigrams a.data).filter
          (fun bg => (getBigrams b.data).contains bg)).length ≤
          (getBigrams a.data).length := List.length_filter_le _ _
      have hpos : (0 : ℚ) <
          ((getBigrams a.data).length : ℚ) + ((getBigrams b.data).length : ℚ) := by
        have h2q : (1 : ℚ) ≤ ((getBigrams b.data).length : ℚ) := by exact_mod_cast hb2
        positivity
      constructor
      · apply div_nonneg _ hpos.le
        positivity
      · rw [div_lt_iff₀ hpos]
        have hIq : (((getBigrams a.data).filter
            (fun bg => (getBigrams b.data).contains bg)).length : ℚ) ≤
            ((getBigrams a.data).length : ℚ) := by exact_mod_cast hI
        have hb2q : (1 : ℚ) ≤ ((getBigrams b.data).length : ℚ) := by exact_mod_cast hb2
        linarith

/-- C4, counterexample: the similarity is not bounded by 1.  Because the
"intersection" is a multiset membership filter, both `"aa"` bigrams of
`"aaa"` match the single `"aa"` bigram of `"aa"`, giving
`2 * 2 / (2 + 1) = 4/3 > 1`. -/
theorem claim4_counterexample :
    calculateStringSimilarity "aaa" "aa" = 4/3 ∧
      ¬(calculateStringSimilarity "aaa" "aa" ≤ 1) := by
  have h : calculateStringSimilarity "aaa" "aa" = 4/3 := by
    rw [calculateStringSimilarity]
    norm_num [getBigrams]
  exact ⟨h, by rw [h]; norm_num⟩

/-- C4, amended: for all strings `a` and `b`,
`calculateStringSimilarity a b` lies in `[0, 2)` (not `[0, 1]`: the
multiset filter can count a bigram of `a` several times, but never more
than `|bigrams a|` times, which bounds the value strictly below 2). -/
theorem claim4_amended (a b : String) :
    0 ≤ calculateStringSimilarity a b ∧ calculateStringSimilarity a b < 2 :=
  similarity_bounds a b

/-! ### Claim C7: the skip rule of the pattern classifiers -/

theorem shouldSkip_of_le {nonEmptyCount totalCount : ℕ}
    (h : totalCount = 0 ∨
      (nonEmptyCount : ℚ) / (totalCount : ℚ) ≤ oneMinusEmptyThreshold) :
    shouldSkip nonEmptyCount totalCount = true := by
  rw [shouldSkip, Bool.or_eq_true]
  rcases h with h | h
  · exact Or.inl (by simp [h])
  · exact Or.inr (decide_eq_true h)

/-- C7, counterexample: a column with exactly 10% non-blank values is
NOT skipped.  In IEEE-754 doubles `1 - 0.9` is
`0.09999999999999998 < 0.1`, so `1/10 <= 1 - EMPTY_THRESHOLD` is false
and a 10-value column with one valid email scores 1, not 0. -/
theorem claim7_counterexample :
    ((getNonEmpty ["a@b.c", "", "", "", "", "", "", "", "", ""]).length : ℚ) /
        (([("a@b.c" : String), "", "", "", "", "", "", "", "", ""]).length : ℚ) ≤
      1 / 10 ∧
    validateEmailPattern ["a@b.c", "", "", "", "", "", "", "", "", ""] = 1 ∧
    (1 : ℚ) ≠ 0 := by
  have h1 : getNonEmpty ["a@b.c", "", "", "", "", "", "", "", "", ""] = ["a@b.c"] := by
    decide
  refine ⟨?_, ?_, by norm_num⟩
  · rw [h1]
    norm_num
  · have h2 : emailRegexTest (jsTrim "a@b.c") = true := by decide
    rw [validateEmailPattern, h1]
    norm_num [shouldSkip, oneMinusEmptyThreshold, h2]

/-- C7, amended: each of the four content pattern classifiers returns 0
when the value list is empty, or when the fraction of non-blank values
is at most `1 - EMPTY_THRESHOLD` as computed in doubles, i.e.
`0.1 - 2^(-53)/5` (approx. `0.09999999999999998`) - not the real `0.1`
of the claim: a fraction of exactly `1/10` escapes the skip rule. -/
theorem claim7_amended (dateParses numFinite : String → Bool)
    (values : List String)
    (h : values.length = 0 ∨
      ((getNonEmpty values).length : ℚ) / (values.length : ℚ) ≤
        oneMinusEmptyThreshold) :
    validateEmailPattern values = 0 ∧ validatePhonePattern values = 0 ∧
      validateDatePattern dateParses values = 0 ∧
      validateNumberPattern numFinite values = 0 := by
  have hskip := shouldSkip_of_le h
  refine ⟨?_, ?_, ?_, ?_⟩
  · rw [validateEmailPattern]
    simp only [hskip, if_true]
  · rw [validatePhonePattern]
    simp only [hskip, if_true]
  · rw [validateDatePattern]
    simp only [hskip, if_true]
  · rw [validateNumberPattern]
    simp only [hskip, if_true]

/-- Witness for `claim7_amended` at the empty list. -/
theorem claim7_amended_witness :
    validateEmailPattern [] = 0 ∧ validatePhonePattern [] = 0 ∧
      validateDatePattern (fun _ => true) [] = 0 ∧
      validateNumberPattern (fun _ => true) [] = 0 :=
  claim7_amended (fun _ => true) (fun _ => true) [] (Or.inl rfl)

/-! ### Claim C2: exact header match scoring -/

/-- Concrete catalog field for the C2 counterexample. -/
def c2Field : ContactField := ⟨"email", "Email", ContactFieldType.email, true⟩

/-- Concrete column data for the C2 counterexample: one valid email
among ten non-blank values, i.e. an email pattern score of `1/10`. -/
def c2Data : List String := ["a@b.c", "x", "x", "x", "x", "x", "x", "x", "x", "x"]

/-- The C2 sample rows producing `c2Data` as column 0. -/
def c2Rows : List (List String) :=
  [["a@b.c"], ["x"], ["x"], ["x"], ["x"], ["x"], ["x"], ["x"], ["x"], ["x"]]

/-- The match that `mapColumns` actually emits in the C2 scenario. -/
def c2Match : FieldMatch :=
  ⟨"email", "Email", Confidence.medium, 60, "Exact header match"⟩

theorem c2ctx :
    calculateScoreContext (fun _ => false) (fun _ => false) "Email" c2Data c2Field =
      (some "Exact header match", 60, 1/10) := by
  have hn : normalizeString "Email" = "email" := by decide
  have hne : ("email" : String) ≠ "" := by decide
  have hp : validateEmailPattern (c2Data.take 100) = 1/10 := by
    have h1 : getNonEmpty (c2Data.take 100) = c2Data := by decide
    have h2 : (List.filter (fun v => emailRegexTest (jsTrim v)) c2Data).length = 1 := by
      decide
    rw [validateEmailPattern, h1]
    norm_num [shouldSkip, oneMinusEmptyThreshold, h2,
      show c2Data.length = 10 from by decide, show c2Data ≠ [] from by decide]
  rw [calculateScoreContext]
  norm_num [hn, hne, hp, validateDataPattern, c2Field]

theorem c2match :
    createMatch (fun _ => false) (fun _ => false) "Email" c2Data c2Field =
      some c2Match := by
  rw [createMatch]
  norm_num [c2ctx,
    show (FULL_NAME_TOKENS.any fun token =>
      jsIncludes (normalizeString "Email") token) = false from by decide,
    getConfidence, c2Match,
    show c2Field.id = "email" from rfl, show c2Field.label = "Email" from rfl]

/-- C2, counterexample: an exact header/label match does NOT always
score 100.  With header `"Email"`, field label `"Email"` (normalized
forms equal, no full-name exclusion) and a column whose email pattern
score is `1/10 ∈ (0, 0.3)`, the weak-pattern penalty multiplies the
base 100 by 0.6: the emitted match scores 60, not 100 (the reason is
still "Exact header match"). -/
theorem claim2_counterexample :
    normalizeString "Email" = normalizeString c2Field.label ∧
      mapColumns [c2Field] (fun _ => false) (fun _ => false) ["Email"] c2Rows =
        [⟨"Email", 0, none, [c2Match], false, ["a@b.c", "x", "x", "x", "x"]⟩] ∧
      c2Match.score ≠ 100 := by
  refine ⟨by decide, ?_, by decide⟩
  have hcd : List.map (fun row : List String => row[0]?.getD "") c2Rows = c2Data := by
    decide
  rw [mapColumns, mapColumnsGo]
  norm_num [List.getD, hcd, findMatches, c2match, List.filterMap_cons,
    List.filterMap_nil, List.insertionSort, List.orderedInsert, mapColumnsGo, c2Match,
    show c2Data.take 5 = ["a@b.c", "x", "x", "x", "x"] from by decide,
    show Confidence.medium ≠ Confidence.high from by decide]

/-- C2, amended: when the normalized header equals the normalized field
label (and is nonempty) and the full-name exclusion does not apply,
`createMatch` emits a match with reason "Exact header match", and its
score is 100 - unless the column's content pattern score for the
field's type lies strictly between 0 and 0.3, in which case the
weak-pattern penalty lowers it to 60. -/
theorem claim2_amended (dateParses numFinite : String → Bool) (header : String)
    (columnData : List String) (field : ContactField)
    (hEq : normalizeString header = normalizeString field.label)
    (hNe : normalizeString header ≠ "")
    (hExcl : ((FULL_NAME_TOKENS.any fun token =>
        jsIncludes (normalizeString header) token) &&
      (field.id == "firstName" || field.id == "lastName")) = false) :
    (createMatch dateParses numFinite header columnData field).map
        FieldMatch.matchReason = some "Exact header match" ∧
      (createMatch dateParses numFinite header columnData field).map
          FieldMatch.score =
        some (if 0 < validateDataPattern dateParses numFinite columnData field.type ∧
            validateDataPattern dateParses numFinite columnData field.type < 3/10
          then 60 else 100) := by
  have hctx : calculateScoreContext dateParses numFinite header columnData field =
      (some "Exact header match",
        (if 0 < validateDataPattern dateParses numFinite columnData field.type ∧
            validateDataPattern dateParses numFinite columnData field.type < 3/10
          then (60 : ℚ) else 100),
        validateDataPattern dateParses numFinite columnData field.type) := by
    rw [calculateScoreContext]
    rw [if_neg (by simpa using hNe)]
    have hbeq : (normalizeString header == normalizeString field.label) = true :=
      beq_iff_eq.mpr hEq
    rw [if_pos hbeq]
    simp only
    rw [if_neg (by norm_num : ¬((100 : ℚ) == 0) = true)]
    set p := validateDataPattern dateParses numFinite columnData field.type with hpdef
    by_cases hstrong : 4/5 < p
    · rw [if_pos hstrong, if_pos (by norm_num : (40:ℚ) ≤ 100)]
      rw [if_neg (by push_neg; intro _; linarith)]
      norm_num
    · rw [if_neg hstrong]
      by_cases hnz : (50:ℚ) ≤ 100 ∧ 0 < p
      · rw [if_pos hnz]
        by_cases hweak : p < 3/10
        · rw [if_pos hweak, if_pos ⟨hnz.2, hweak⟩]
          norm_num
        · rw [if_neg hweak, if_neg (by push_neg; intro _; linarith)]
      · rw [if_neg hnz]
        rw [if_neg (by push_neg; intro hp0; exact absurd ⟨by norm_num, hp0⟩ hnz)]
  rw [createMatch, if_neg (by simp [hExcl])]
  simp only [hctx]
  by_cases hcase : 0 < validateDataPattern dateParses numFinite columnData field.type ∧
      validateDataPattern dateParses numFinite columnData field.type < 3/10
  · rw [if_pos hcase]
    rw [if_neg (by norm_num : ¬((60:ℚ) ≤ 0))]
    constructor
    · simp
    · simp [if_pos hcase]
  · rw [if_neg hcase]
    rw [if_neg (by norm_num : ¬((100:ℚ) ≤ 0))]
    constructor
    · simp
    · simp [if_neg hcase]

/-- Witness for `claim2_amended`: header `"Email"`, label `"email"`,
a text-type field (pattern score `0.5`, no penalty), score 100. -/
theorem claim2_amended_witness :
    (createMatch (fun _ => false) (fun _ => false) "Email" []
        ⟨"em", "email", ContactFieldType.text, true⟩).map
        FieldMatch.matchReason = some "Exact header match" ∧
      (createMatch (fun _ => false) (fun _ => false) "Email" []
          ⟨"em", "email", ContactFieldType.text, true⟩).map FieldMatch.score =
        some (if 0 < validateDataPattern (fun _ => false) (fun _ => false) []
              ContactFieldType.text ∧
            validateDataPattern (fun _ => false) (fun _ => false) []
              ContactFieldType.text < 3/10
          then 60 else 100) :=
  claim2_amended (fun _ => false) (fun _ => false) "Email" []
    ⟨"em", "email", ContactFieldType.text, true⟩ (by decide) (by decide) (by decide)

/-! ### Claim C3: range of the emitted scores -/

theorem synonymHit_score {normalizedHeader : String} {synonyms : List String}
    {s : ℚ} {r : String} (h : synonymHit normalizedHeader synonyms = some (s, r)) :
    s = 75 ∨ s = 65 := by
  induction synonyms with
  | nil => simp [synonymHit] at h
  | cons syn rest ih =>
    rw [synonymHit] at h
    by_cases h1 : (normalizeString syn == normalizedHeader) = true
    · rw [if_pos h1] at h
      simp at h
      exact Or.inl h.1.symm
    · rw [if_neg h1] at h
      by_cases h2 : (jsIncludes normalizedHeader (normalizeString syn) ||
          jsIncludes (normalizeString syn) normalizedHeader) = true
      · rw [if_pos h2] at h
        simp at h
        exact Or.inr h.1.symm
      · rw [if_neg h2] at h
        exact ih h

theorem calculateScoreContext_score_bounds (dateParses numFinite : String → Bool)
    (header : String) (columnData : List String) (field : ContactField) :
    0 ≤ (calculateScoreContext dateParses numFinite header columnData field).2.1 ∧
      (calculateScoreContext dateParses numFinite header columnData field).2.1 ≤ 119 := by
  rw [calculateScoreContext]
  by_cases h0 : (normalizeString header == "") = true
  · rw [if_pos h0]
    norm_num
  · rw [if_neg h0]
    simp only
    set base : ℚ × Option String :=
      (if (normalizeString header == normalizeString field.label) = true then
        ((100 : ℚ), some "Exact header match")
      else if (jsIncludes (normalizeString header) (normalizeString field.label) ||
          jsIncludes (normalizeString field.label) (normalizeString header)) = true then
        ((80 : ℚ), some "Similar header match")
      else
        match getSynonymMatchScore (normalizeString header) field.id with
        | some (s, r) => (s, some r)
        | none => ((0 : ℚ), none)) with hbase
    have hbase_bounds : 0 ≤ base.1 ∧ base.1 ≤ 100 := by
      rw [hbase]
      by_cases h1 : (normalizeString header == normalizeString field.label) = true
      · rw [if_pos h1]
        norm_num
      · rw [if_neg h1]
        by_cases h2 : (jsIncludes (normalizeString header) (normalizeString field.label) ||
            jsIncludes (normalizeString field.label) (normalizeString header)) = true
        · rw [if_pos h2]
          norm_num
        · rw [if_neg h2]
          cases hsyn : getSynonymMatchScore (normalizeString header) field.id with
          | none => norm_num
          | some p =>
            obtain ⟨s, r⟩ := p
            rcases synonymHit_score hsyn with h | h <;> simp [h] <;> norm_num
    set fuzzy : ℚ × Option String :=
      (if (base.1 == 0) = true then
        if 3/5 < calculateStringSimilarity (normalizeString header)
            (normalizeString field.label) then
          (((⌊calculateStringSimilarity (normalizeString header)
              (normalizeString field.label) * 60⌋ : ℤ) : ℚ), some "Similar header name")
        else base
      else base) with hfuzzy
    have hfuzzy_bounds : 0 ≤ fuzzy.1 ∧ fuzzy.1 ≤ 119 := by
      rw [hfuzzy]
      by_cases h1 : (base.1 == 0) = true
      · rw [if_pos h1]
        by_cases h2 : 3/5 < calculateStringSimilarity (normalizeString header)
            (normalizeString field.label)
        · rw [if_pos h2]
          obtain ⟨hs0, hs2⟩ := similarity_bounds (normalizeString header)
            (normalizeString field.label)
          constructor
          · simp only
            have : (0 : ℤ) ≤ ⌊calculateStringSimilarity (normalizeString header)
                (normalizeString field.label) * 60⌋ := by
              apply Int.floor_nonneg.mpr
              positivity
            exact_mod_cast this
          · simp only
            have : (⌊calculateStringSimilarity (normalizeString header)
                (normalizeString field.label) * 60⌋ : ℤ) ≤ 119 := by
              have h120 : calculateStringSimilarity (normalizeString header)
                  (normalizeString field.label) * 60 < 120 := by linarith
              have hlt : (⌊calculateStringSimilarity (normalizeString header)
                  (normalizeString field.label) * 60⌋ : ℤ) < 120 :=
                Int.floor_lt.mpr (by exact_mod_cast h120)
              omega
            exact_mod_cast this
        · rw [if_neg h2]
          exact ⟨hbase_bounds.1, hbase_bounds.2.trans (by norm_num)⟩
      · rw [if_neg h1]
        exact ⟨hbase_bounds.1, hbase_bounds.2.trans (by norm_num)⟩
    set p := validateDataPattern dateParses numFinite columnData field.type with hp
    by_cases hstrong : 4/5 < p
    · rw [if_pos hstrong]
      by_cases h40 : (40:ℚ) ≤ fuzzy.1
      · rw [if_pos h40]
        constructor
        · simp only
          exact le_min (by norm_num) (by linarith [hfuzzy_bounds.1])
        · simp only
          exact le_trans (min_le_left _ _) (by norm_num)
      · rw [if_neg h40]
        norm_num
    · rw [if_neg hstrong]
      by_cases hmed : (50:ℚ) ≤ fuzzy.1 ∧ 0 < p
      · rw [if_pos hmed]
        by_cases hweak : p < 3/10
        · rw [if_pos hweak]
          constructor
          · simp only
            have : (0 : ℤ) ≤ ⌊fuzzy.1 * (6/10)⌋ := by
              apply Int.floor_nonneg.mpr
              have := hfuzzy_bounds.1
              positivity
            exact_mod_cast this
          · simp only
            have : (⌊fuzzy.1 * (6/10)⌋ : ℤ) ≤ 119 := by
              have hle : fuzzy.1 * (6/10) ≤ 119 := by nlinarith [hfuzzy_bounds.2]
              have hlt : (⌊fuzzy.1 * (6/10)⌋ : ℤ) < 120 :=
                Int.floor_lt.mpr (by push_cast; linarith)
              omega
            exact_mod_cast this
        · rw [if_neg hweak]
          exact hfuzzy_bounds
      · rw [if_neg hmed]
        exact hfuzzy_bounds

theorem createMatch_score_bounds {dateParses numFinite : String → Bool}
    {header : String} {columnData : List String} {field : ContactField}
    {m : FieldMatch}
    (h : createMatch dateParses numFinite header columnData field = some m) :
    0 ≤ m.score ∧ m.score ≤ 119 := by
  rw [createMatch] at h
  by_cases hexcl : ((FULL_NAME_TOKENS.any fun token =>
      jsIncludes (normalizeString header) token) &&
      (field.id == "firstName" || field.id == "lastName")) = true
  · rw [if_pos hexcl] at h
    exact absurd h (by simp)
  · rw [if_neg hexcl] at h
    simp only at h
    by_cases hz : (calculateScoreContext dateParses numFinite header columnData
        field).2.1 ≤ 0
    · rw [if_pos hz] at h
      exact absurd h (by simp)
    · rw [if_neg hz] at h
      simp only [Option.some.injEq] at h
      have hb := calculateScoreContext_score_bounds dateParses numFinite header
        columnData field
      have hscore : m.score = ⌊(calculateScoreContext dateParses numFinite header
          columnData field).2.1⌋ := by
        rw [← h]
      rw [hscore]
      constructor
      · exact Int.floor_nonneg.mpr hb.1
      · calc ⌊(calculateScoreContext dateParses numFinite header columnData
            field).2.1⌋ ≤ ⌊(119 : ℚ)⌋ := Int.floor_le_floor hb.2
          _ = 119 := by norm_num

theorem mem_findMatches {fields : List ContactField}
    {dateParses numFinite : String → Bool} {header : String}
    {columnData : List String} {m : FieldMatch}
    (h : m ∈ findMatches fields dateParses numFinite header columnData) :
    ∃ field ∈ fields, createMatch dateParses numFinite header columnData field
      = some m := by
  rw [findMatches] at h
  have hperm := List.perm_insertionSort matchLE
    (fields.filterMap (createMatch dateParses numFinite header columnData))
  have h2 := hperm.mem_iff.mp h
  rw [List.mem_filterMap] at h2
  obtain ⟨field, hf, hc⟩ := h2
  exact ⟨field, hf, hc⟩

set_option maxHeartbeats 400000 in
theorem mem_mapColumnsGo_suggested {fields : List ContactField}
    {dateParses numFinite : String → Bool} {sampleData : List (List String)} :
    ∀ {rest : List String} {index : ℕ} {claimed : List String}
      {cm : ColumnMapping},
      cm ∈ mapColumnsGo fields dateParses numFinite sampleData rest index claimed →
      ∃ header columnData, cm.suggestedMatches =
        (findMatches fields dateParses numFinite header columnData).take 3 := by
  intro rest
  induction rest with
  | nil => intro index claimed cm h; simp [mapColumnsGo] at h
  | cons header rest ih =>
    intro index claimed cm h
    rw [mapColumnsGo] at h
    rcases List.mem_cons.mp h with h1 | h1
    · refine ⟨header, sampleData.map (fun row => row.getD index ""), ?_⟩
      rw [h1]
    · exact ih h1

/-- Concrete catalog field for the C3 counterexample. -/
def c3Field : ContactField := ⟨"weird", "baab", ContactFieldType.text, true⟩

/-- Concrete header for the C3 counterexample: sixteen `a`s and one `b`.
Its sixteen bigrams (fifteen `"aa"`, one `"ab"`) all occur among the
three bigrams of `"baab"`, so the multiset-filter similarity is
`2*16/19 = 32/19 > 5/3`. -/
def c3Header : String := "aaaaaaaaaaaaaaaab"

/-- The match that `mapColumns` actually emits in the C3 scenario. -/
def c3Match : FieldMatch :=
  ⟨"weird", "baab", Confidence.high, 101, "Similar header name"⟩

theorem c3sim : calculateStringSimilarity c3Header "baab" = 32/19 := by
  rw [calculateStringSimilarity]
  norm_num [show (getBigrams c3Header.data).length = 16 from by decide,
    show (getBigrams "baab".data).length = 3 from by decide,
    show (List.filter (fun bg => decide (bg ∈ getBigrams ['b', 'a', 'a', 'b']))
      (getBigrams c3Header.data)).length = 16 from by decide,
    show (getBigrams c3Header.data).isEmpty = false from by decide,
    show (getBigrams "baab".data).isEmpty = false from by decide,
    show c3Header.data.isEmpty = false from by decide,
    show ("baab" : String).data.isEmpty = false from by decide]

theorem c3ctx :
    calculateScoreContext (fun _ => false) (fun _ => false) c3Header [] c3Field =
      (some "Similar header name", 101, 1/2) := by
  have hn : normalizeString c3Header = c3Header := by decide
  have hl : normalizeString "baab" = "baab" := by decide
  rw [calculateScoreContext]
  norm_num [hn, hl, c3sim, validateDataPattern, c3Field,
    show c3Header ≠ "" from by decide,
    show (c3Header == "baab") = false from by decide,
    show jsIncludes c3Header "baab" = false from by decide,
    show jsIncludes "baab" c3Header = false from by decide,
    show getSynonymMatchScore c3Header "weird" = none from by decide]

theorem c3match :
    createMatch (fun _ => false) (fun _ => false) c3Header [] c3Field =
      some c3Match := by
  rw [createMatch]
  norm_num [c3ctx,
    show (FULL_NAME_TOKENS.any fun token =>
      jsIncludes (normalizeString c3Header) token) = false from by decide,
    getConfidence, c3Match,
    show c3Field.id = "weird" from rfl, show c3Field.label = "baab" from rfl]

/-- C3, counterexample: `mapColumns` can emit a `FieldMatch` whose score
exceeds 100.  With the single text-type field labelled `"baab"` and the
header `"aaaaaaaaaaaaaaaab"`, the fuzzy fallback scores
`floor(32/19 * 60) = 101 > 100` (the bigram similarity exceeds 1, see
C4). -/
theorem claim3_counterexample :
    mapColumns [c3Field] (fun _ => false) (fun _ => false) [c3Header] [] =
      [⟨c3Header, 0, some "weird", [c3Match], false, []⟩] ∧
      ¬(c3Match.score ≤ 100) := by
  refine ⟨?_, by decide⟩
  rw [mapColumns, mapColumnsGo]
  norm_num [findMatches, c3match, List.filterMap_cons, List.filterMap_nil,
    List.insertionSort, List.orderedInsert, mapColumnsGo, c3Match,
    show Confidence.high = Confidence.high from rfl]

/-- C3, amended: every `FieldMatch` in the output of `mapColumns` has an
integer score between 0 and 119 inclusive (119, not 100: the fuzzy
fallback `floor(similarity * 60)` with a similarity strictly below 2 is
the only path above 100, and every other path stays at or below 100). -/
theorem claim3_amended (fields : List ContactField)
    (dateParses numFinite : String → Bool) (headers : List String)
    (sampleData : List (List String)) (cm : ColumnMapping) (m : FieldMatch)
    (hcm : cm ∈ mapColumns fields dateParses numFinite headers sampleData)
    (hm : m ∈ cm.suggestedMatches) : 0 ≤ m.score ∧ m.score ≤ 119 := by
  rw [mapColumns] at hcm
  obtain ⟨header, columnData, hsug⟩ := mem_mapColumnsGo_suggested hcm
  rw [hsug] at hm
  have hm2 := List.mem_of_mem_take hm
  obtain ⟨field, _, hcreate⟩ := mem_findMatches hm2
  exact createMatch_score_bounds hcreate

/-- Witness for `claim3_amended` at the C3 counterexample input. -/
theorem claim3_amended_witness : 0 ≤ c3Match.score ∧ c3Match.score ≤ 119 := by
  have hmap : mapColumns [c3Field] (fun _ => false) (fun _ => false) [c3Header] [] =
      [⟨c3Header, 0, some "weird", [c3Match], false, []⟩] := by
    rw [mapColumns, mapColumnsGo]
    norm_num [findMatches, c3match, List.filterMap_cons, List.filterMap_nil,
      List.insertionSort, List.orderedInsert, mapColumnsGo, c3Match,
      show Confidence.high = Confidence.high from rfl]
  exact claim3_amended [c3Field] (fun _ => false) (fun _ => false) [c3Header] []
    ⟨c3Header, 0, some "weird", [c3Match], false, []⟩ c3Match
    (by rw [hmap]; exact List.mem_singleton_self _)
    (by exact List.mem_singleton_self _)

/-! ### Claim C10: frame conditions of the duplicate resolver -/

/-- C10: `resolveDuplicateSuggestions` preserves the length and order of
its input, and for every mapping leaves `csvColumn`, `csvIndex` and
`sampleData` unchanged; only `selectedField`, `suggestedMatches` and
`isCustomField` can differ. -/
theorem claim10_frame (mappings : List ColumnMapping) :
    (resolveDuplicateSuggestions mappings).length = mappings.length ∧
      List.Forall₂
        (fun a b => b.csvColumn = a.csvColumn ∧ b.csvIndex = a.csvIndex ∧
          b.sampleData = a.sampleData)
        mappings (resolveDuplicateSuggestions mappings) := by
  have hrefl : List.Forall₂
      (fun a b => b.csvColumn = a.csvColumn ∧ b.csvIndex = a.csvIndex ∧
        b.sampleData = a.sampleData) mappings mappings :=
    List.forall₂_same.mpr (fun x _ => ⟨rfl, rfl, rfl⟩)
  rw [resolveDuplicateSuggestions]
  by_cases h1 : (duplicatesOf mappings).isEmpty = true
  · rw [if_pos h1]
    exact ⟨rfl, hrefl⟩
  · rw [if_neg h1]
    by_cases h2 : (loserIndicesOf mappings).isEmpty = true
    · rw [if_pos h2]
      exact ⟨rfl, hrefl⟩
    · rw [if_neg h2]
      constructor
      · exact List.length_map _ _
      · rw [List.forall₂_map_right_iff]
        apply List.forall₂_same.mpr
        intro m _
        rw [resolveStep]
        cases hpm : m.suggestedMatches.head? with
        | none => exact ⟨rfl, rfl, rfl⟩
        | some primaryMatch =>
          dsimp only
          cases hlk : (winnerByFieldOf mappings).lookup
              primaryMatch.systemFieldId with
          | none => exact ⟨rfl, rfl, rfl⟩
          | some winnerIndex =>
            dsimp only
            by_cases hw : m.csvIndex = winnerIndex
            · rw [if_pos hw]
              by_cases hc : primaryMatch.confidence = Confidence.high ∧
                  m.selectedField ≠ some primaryMatch.systemFieldId
              · rw [if_pos hc]
                exact ⟨rfl, rfl, rfl⟩
              · rw [if_neg hc]
                exact ⟨rfl, rfl, rfl⟩
            · rw [if_neg hw]
              exact ⟨rfl, rfl, rfl⟩

/-! ### The grouping structure of the duplicate resolver -/

theorem lookup_cons_pos {α : Type} {f k : String} {v : α}
    {rest : List (String × α)} (h : f = k) :
    ((k, v) :: rest).lookup f = some v := by
  simp [List.lookup, beq_iff_eq.mpr h]

theorem lookup_cons_neg {α : Type} {f k : String} {v : α}
    {rest : List (String × α)} (h : f ≠ k) :
    ((k, v) :: rest).lookup f = rest.lookup f := by
  simp [List.lookup, beq_eq_false_iff_ne.mpr h]

theorem lookup_addToGroup (acc : List (String × List ColumnMapping)) (f' : String)
    (m : ColumnMapping) (f : String) :
    (addToGroup acc f' m).lookup f =
      if f = f' then
        match acc.lookup f with
        | some g => some (g ++ [m])
        | none => some [m]
      else acc.lookup f := by
  induction acc with
  | nil =>
    rw [addToGroup]
    by_cases h : f = f'
    · rw [if_pos h, lookup_cons_pos h]
      rfl
    · rw [if_neg h, lookup_cons_neg h]
  | cons kv rest ih =>
    obtain ⟨k, g⟩ := kv
    rw [addToGroup]
    by_cases hk : k = f'
    · rw [if_pos hk]
      by_cases h : f = k
      · rw [if_pos (h.trans hk), lookup_cons_pos h, lookup_cons_pos h]
      · have hff : ¬ f = f' := fun he => h (he.trans hk.symm)
        rw [if_neg hff, lookup_cons_neg h, lookup_cons_neg h]
    · rw [if_neg hk]
      by_cases h : f = k
      · have hff : ¬ f = f' := fun he => hk (h.symm.trans he)
        rw [if_neg hff, lookup_cons_pos h, lookup_cons_pos h]
      · rw [lookup_cons_neg h, lookup_cons_neg h]
        exact ih

theorem lookup_groupFold (ms : List ColumnMapping) :
    ∀ (acc : List (String × List ColumnMapping)) (f : String),
      (ms.foldl
        (fun acc m =>
          match m.suggestedMatches.head? with
          | none => acc
          | some primaryMatch => addToGroup acc primaryMatch.systemFieldId m)
        acc).lookup f =
      match acc.lookup f with
      | some g => some (g ++ ms.filter (fun m => topFieldId m == some f))
      | none =>
        if (ms.filter (fun m => topFieldId m == some f)).isEmpty then none
        else some (ms.filter (fun m => topFieldId m == some f)) := by
  induction ms with
  | nil =>
    intro acc f
    simp only [List.foldl_nil, List.filter_nil]
    cases acc.lookup f <;> simp
  | cons m ms ih =>
    intro acc f
    rw [List.foldl_cons]
    cases hpm : m.suggestedMatches.head? with
    | none =>
      have htop : (topFieldId m == some f) = false := by
        simp [topFieldId, topMatch, hpm]
      have hfilt : List.filter (fun m => topFieldId m == some f) (m :: ms) =
          List.filter (fun m => topFieldId m == some f) ms := by
        rw [List.filter_cons, if_neg (by simp [htop])]
      rw [hfilt]
      simp only [hpm]
      exact ih acc f
    | some primaryMatch =>
      simp only [hpm]
      rw [ih (addToGroup acc primaryMatch.systemFieldId m) f,
        lookup_addToGroup acc primaryMatch.systemFieldId m f]
      by_cases hf : f = primaryMatch.systemFieldId
      · have htop : (topFieldId m == some f) = true := by
          simp [topFieldId, topMatch, hpm, hf]
        have hfilt : List.filter (fun m => topFieldId m == some f) (m :: ms) =
            m :: List.filter (fun m => topFieldId m == some f) ms := by
          rw [List.filter_cons, if_pos (by simp [htop])]
        rw [if_pos hf, hfilt]
        cases hacc : acc.lookup f with
        | some g => simp
        | none => simp
      · have htop : (topFieldId m == some f) = false := by
          simp only [topFieldId, topMatch, hpm, Option.map_some']
          simp only [beq_eq_false_iff_ne, ne_eq, Option.some.injEq]
          exact fun he => hf he.symm
        have hfilt : List.filter (fun m => topFieldId m == some f) (m :: ms) =
            List.filter (fun m => topFieldId m == some f) ms := by
          rw [List.filter_cons, if_neg (by simp [htop])]
        rw [if_neg hf, hfilt]

theorem lookup_groupByTop (ms : List ColumnMapping) (f : String) :
    (groupByTop ms).lookup f =
      if (ms.filter (fun m => topFieldId m == some f)).isEmpty then none
      else some (ms.filter (fun m => topFieldId m == some f)) := by
  rw [groupByTop, lookup_groupFold ms [] f]
  rfl

theorem lookup_filter_of_lookup {α : Type} {l : List (String × α)}
    {q : String × α → Bool} {f : String} {g : α}
    (h : l.lookup f = some g) (hq : q (f, g) = true) :
    (l.filter q).lookup f = some g := by
  induction l with
  | nil => simp [List.lookup] at h
  | cons kv rest ih =>
    obtain ⟨k, v⟩ := kv
    rw [List.filter_cons]
    by_cases hk : f = k
    · rw [lookup_cons_pos hk] at h
      simp only [Option.some.injEq] at h
      subst h
      subst hk
      rw [if_pos hq]
      exact lookup_cons_pos rfl
    · rw [lookup_cons_neg hk] at h
      by_cases hqr : q (k, v) = true
      · rw [if_pos hqr, lookup_cons_neg hk]
        exact ih h
      · rw [if_neg hqr]
        exact ih h

theorem mem_of_lookup_assoc {α : Type} {l : List (String × α)} {f : String}
    {g : α} (h : l.lookup f = some g) : (f, g) ∈ l := by
  induction l with
  | nil => simp [List.lookup] at h
  | cons kv rest ih =>
    obtain ⟨k, v⟩ := kv
    by_cases hk : f = k
    · rw [lookup_cons_pos hk] at h
      simp only [Option.some.injEq] at h
      subst h
      subst hk
      exact List.mem_cons_self _ _
    · rw [lookup_cons_neg hk] at h
      exact List.mem_cons_of_mem _ (ih h)

theorem lookup_ne_nil {α : Type} {l : List (String × α)} {f : String} {g : α}
    (h : l.lookup f = some g) : l ≠ [] := by
  intro he
  rw [he] at h
  simp [List.lookup] at h

theorem lookup_winnerByFieldAux {dups : List (String × List ColumnMapping)}
    {f : String} {g : List ColumnMapping} {w : ColumnMapping}
    (h : dups.lookup f = some g) (hw : (sortGroup g).head? = some w) :
    (dups.filterMap
        (fun p => ((sortGroup p.2).head?).map (fun x => (p.1, x.csvIndex)))).lookup
      f = some w.csvIndex := by
  induction dups with
  | nil => simp [List.lookup] at h
  | cons kv rest ih =>
    obtain ⟨k, g'⟩ := kv
    rw [List.filterMap_cons]
    by_cases hk : f = k
    · rw [lookup_cons_pos hk] at h
      simp only [Option.some.injEq] at h
      subst h
      rw [hw]
      simp only [Option.map_some']
      exact lookup_cons_pos hk
    · rw [lookup_cons_neg hk] at h
      cases hh : ((sortGroup g').head?).map (fun x => (k, x.csvIndex)) with
      | none =>
        dsimp only
        exact ih h
      | some p =>
        dsimp only
        have hp1 : p.1 = k := by
          cases hsg : (sortGroup g').head? with
          | none => rw [hsg] at hh; simp at hh
          | some x =>
            rw [hsg] at hh
            simp at hh
            rw [← hh]
        rw [lookup_cons_neg (by rw [hp1]; exact hk)]
        exact ih h

theorem sortGroup_head_rel {g : List ColumnMapping} {w : ColumnMapping}
    {rest : List ColumnMapping} (h : sortGroup g = w :: rest) :
    ∀ m ∈ g, m = w ∨ groupLE w m := by
  intro m hm
  have hperm := (List.perm_insertionSort groupLE g).symm
  have hmem : m ∈ sortGroup g := hperm.mem_iff.mp hm
  rw [h] at hmem
  rcases List.mem_cons.mp hmem with h1 | h1
  · exact Or.inl h1
  · have hsorted := List.sorted_insertionSort groupLE g
    rw [sortGroup] at h
    rw [h] at hsorted
    exact Or.inr (List.rel_of_sorted_cons hsorted m h1)

theorem sortGroup_head_mem {g : List ColumnMapping} {w : ColumnMapping}
    {rest : List ColumnMapping} (h : sortGroup g = w :: rest) : w ∈ g := by
  have hperm := List.perm_insertionSort groupLE g
  have : w ∈ sortGroup g := by rw [h]; exact List.mem_cons_self _ _
  exact hperm.mem_iff.mp this

theorem two_mem_one_lt_length {α : Type} {l : List α} {a b : α}
    (ha : a ∈ l) (hb : b ∈ l) (hab : a ≠ b) : 1 < l.length := by
  match l with
  | [] => simp at ha
  | [x] =>
    rw [List.mem_singleton] at ha hb
    exact absurd (ha.trans hb.symm) hab
  | x :: y :: t => simp only [List.length_cons]; omega

/-! ### Claim C1: treatment of losing columns -/

/-- `a` strictly precedes `b` in the resolver's winner order: higher
top score, or equal top score and lower column index. -/
def StrictlyBefore (a b : ColumnMapping) : Prop :=
  topScore b < topScore a ∨ (topScore a = topScore b ∧ a.csvIndex < b.csvIndex)

instance (a b : ColumnMapping) : Decidable (StrictlyBefore a b) :=
  inferInstanceAs (Decidable (_ ∨ _))

/-- `m` is the winner of its top-suggestion group within `ms`: it
strictly precedes every other column with the same top field. -/
def IsTopGroupWinner (ms : List ColumnMapping) (m : ColumnMapping) : Prop :=
  ∀ m2 ∈ ms, topFieldId m2 = topFieldId m → m2 ≠ m → StrictlyBefore m m2

instance (ms : List ColumnMapping) (m : ColumnMapping) :
    Decidable (IsTopGroupWinner ms m) :=
  inferInstanceAs (Decidable (∀ m2 ∈ ms, _ → _ → _))

/-- `m` is a losing column of a contested field: it has a top
suggestion, some other column has the same top field, and `m` is not
the winner of that group. -/
def IsContestedLoser (ms : List ColumnMapping) (m : ColumnMapping) : Prop :=
  topFieldId m ≠ none ∧ (∃ m2 ∈ ms, m2 ≠ m ∧ topFieldId m2 = topFieldId m) ∧
    ¬ IsTopGroupWinner ms m

instance (ms : List ColumnMapping) (m : ColumnMapping) :
    Decidable (IsContestedLoser ms m) :=
  inferInstanceAs (Decidable (_ ∧ _ ∧ _))

theorem topFieldId_eq_some {m : ColumnMapping} {pm : FieldMatch}
    (h : m.suggestedMatches.head? = some pm) :
    topFieldId m = some pm.systemFieldId := by
  rw [topFieldId, topMatch, h, Option.map_some']

/-- The structural facts of one contested field: its grouped entry, its
sorted group with a winner at the head, the `winnerByField` entry, and
the non-emptiness of `duplicates` and `loserIndices`. -/
theorem resolve_main_facts {ms : List ColumnMapping} {m : ColumnMapping}
    {pm : FieldMatch} (hmem : m ∈ ms)
    (hpm : m.suggestedMatches.head? = some pm)
    (hm2 : ∃ m2 ∈ ms, m2 ≠ m ∧ topFieldId m2 = topFieldId m) :
    ∃ w rest,
      sortGroup (ms.filter (fun x => topFieldId x == some pm.systemFieldId)) =
        w :: rest ∧
      rest ≠ [] ∧
      w ∈ ms.filter (fun x => topFieldId x == some pm.systemFieldId) ∧
      (∀ x ∈ ms.filter (fun x => topFieldId x == some pm.systemFieldId),
        x = w ∨ groupLE w x) ∧
      (winnerByFieldOf ms).lookup pm.systemFieldId = some w.csvIndex ∧
      (duplicatesOf ms).isEmpty = false ∧ (loserIndicesOf ms).isEmpty = false := by
  obtain ⟨m2, hm2mem, hm2ne, hm2top⟩ := hm2
  have htopm : topFieldId m = some pm.systemFieldId := topFieldId_eq_some hpm
  set f := pm.systemFieldId with hf
  set g := ms.filter (fun x => topFieldId x == some f) with hg
  have hmg : m ∈ g := by
    rw [hg, List.mem_filter]
    exact ⟨hmem, by simp [htopm]⟩
  have hm2g : m2 ∈ g := by
    rw [hg, List.mem_filter]
    exact ⟨hm2mem, by simp [hm2top, htopm]⟩
  have hglen : 1 < g.length := two_mem_one_lt_length hm2g hmg hm2ne
  have hgne : g ≠ [] := by
    intro he
    rw [he] at hmg
    exact absurd hmg (List.not_mem_nil m)
  have hlkg : (groupByTop ms).lookup f = some g := by
    rw [lookup_groupByTop, ← hg, if_neg (by simpa using hgne)]
  have hlkd : (duplicatesOf ms).lookup f = some g := by
    rw [duplicatesOf]
    exact lookup_filter_of_lookup hlkg (by simpa using hglen)
  have hsortlen : (sortGroup g).length = g.length :=
    (List.perm_insertionSort groupLE g).length_eq
  obtain ⟨w, rest, hsort⟩ : ∃ w rest, sortGroup g = w :: rest := by
    cases hs : sortGroup g with
    | nil =>
      rw [hs] at hsortlen
      simp at hsortlen
      omega
    | cons w rest => exact ⟨w, rest, rfl⟩
  have hrest : rest ≠ [] := by
    intro he
    rw [he] at hsort
    rw [hsort] at hsortlen
    simp at hsortlen
    omega
  refine ⟨w, rest, hsort, hrest, sortGroup_head_mem hsort,
    sortGroup_head_rel hsort, ?_, ?_, ?_⟩
  · rw [winnerByFieldOf]
    exact lookup_winnerByFieldAux hlkd (by rw [hsort]; rfl)
  · exact List.isEmpty_eq_false.mpr (lookup_ne_nil hlkd)
  · cases hr : rest with
    | nil => exact absurd hr hrest
    | cons r0 rtail =>
      apply List.isEmpty_eq_false.mpr
      intro he
      have : r0.csvIndex ∈ loserIndicesOf ms := by
        rw [loserIndicesOf]
        apply List.mem_flatMap.mpr
        refine ⟨(f, g), mem_of_lookup_assoc hlkd, ?_⟩
        rw [hsort, hr]
        simp
      rw [he] at this
      exact absurd this (List.not_mem_nil _)

/-- With pairwise-distinct `csvIndex`es, the head of the sorted group is
the winner of the group in the declarative sense. -/
theorem head_is_winner {ms : List ColumnMapping}
    (hidx : ms.Pairwise (fun a b => a.csvIndex ≠ b.csvIndex)) {f : String}
    {w : ColumnMapping}
    (hwmem : w ∈ ms.filter (fun x => topFieldId x == some f))
    (hrel : ∀ x ∈ ms.filter (fun x => topFieldId x == some f), x = w ∨ groupLE w x)
    (htopw : topFieldId w = some f) :
    IsTopGroupWinner ms w := by
  intro m2 hm2 htop2 hne
  have hm2g : m2 ∈ ms.filter (fun x => topFieldId x == some f) := by
    rw [List.mem_filter]
    exact ⟨hm2, by simp [htop2, htopw]⟩
  rcases hrel m2 hm2g with h | h
  · exact absurd h hne
  · have hwm : w ∈ ms := (List.mem_filter.mp hwmem).1
    have hsym : Symmetric (fun a b : ColumnMapping => a.csvIndex ≠ b.csvIndex) :=
      fun a b hh => Ne.symm hh
    have hidxne : w.csvIndex ≠ m2.csvIndex :=
      List.Pairwise.forall hsym hidx hwm hm2 (fun he => hne he.symm)
    rcases h with h | ⟨heq, hle⟩
    · exact Or.inl h
    · exact Or.inr ⟨heq, lt_of_le_of_ne hle hidxne⟩

/-- C1, counterexample: a losing column does NOT get
`isCustomField = true`.  Columns 0 and 1 both have top suggestion for
field `"f"` (scores 50 and 30); column 1 is the loser under
(score desc, index asc): its `suggestedMatches` are cleared and its
`selectedField` (which pointed at `"f"`) is cleared, but the code sets
`isCustomField` to `false`, not `true`. -/
theorem claim1_counterexample :
    resolveDuplicateSuggestions
        [⟨"A", 0, none, [⟨"f", "F", Confidence.low, 50, "r"⟩], false, []⟩,
         ⟨"B", 1, some "f", [⟨"f", "F", Confidence.low, 30, "r"⟩], false, []⟩] =
      [⟨"A", 0, none, [⟨"f", "F", Confidence.low, 50, "r"⟩], false, []⟩,
       ⟨"B", 1, none, [], false, []⟩] ∧
    IsContestedLoser
      [⟨"A", 0, none, [⟨"f", "F", Confidence.low, 50, "r"⟩], false, []⟩,
       ⟨"B", 1, some "f", [⟨"f", "F", Confidence.low, 30, "r"⟩], false, []⟩]
      ⟨"B", 1, some "f", [⟨"f", "F", Confidence.low, 30, "r"⟩], false, []⟩ ∧
    (⟨"B", 1, none, [], false, []⟩ : ColumnMapping).isCustomField ≠ true := by
  refine ⟨by decide, by decide, by decide⟩

/-- C1, amended: for an input whose columns have pairwise-distinct
`csvIndex`es, every losing column of a contested field has its
`suggestedMatches` cleared to `[]`, its `selectedField` cleared when it
pointed at the contested field (otherwise kept), and its
`isCustomField` flag set to `false` (the claim said `true`; the code
sets `false`). -/
theorem claim1_amended (ms : List ColumnMapping)
    (hidx : ms.Pairwise (fun a b => a.csvIndex ≠ b.csvIndex))
    (i : ℕ) (m : ColumnMapping) (hm : ms[i]? = some m)
    (hloser : IsContestedLoser ms m) :
    ((resolveDuplicateSuggestions ms)[i]?).map ColumnMapping.suggestedMatches =
        some [] ∧
      ((resolveDuplicateSuggestions ms)[i]?).map ColumnMapping.isCustomField =
        some false ∧
      ((resolveDuplicateSuggestions ms)[i]?).map ColumnMapping.selectedField =
        some (if m.selectedField = topFieldId m then none else m.selectedField) := by
  obtain ⟨htop, hm2, hnotwin⟩ := hloser
  have hmem : m ∈ ms := List.getElem?_mem hm
  obtain ⟨pm, hpm⟩ : ∃ pm, m.suggestedMatches.head? = some pm := by
    cases hp : m.suggestedMatches.head? with
    | none => exact absurd (by rw [topFieldId, topMatch, hp]; rfl) htop
    | some pm => exact ⟨pm, rfl⟩
  obtain ⟨w, rest, hsort, hrest, hwmem, hrel, hwb, hdne, hlne⟩ :=
    resolve_main_facts hmem hpm hm2
  have htopw : topFieldId w = some pm.systemFieldId := by
    have := (List.mem_filter.mp hwmem).2
    simpa using this
  have hwin : IsTopGroupWinner ms w := head_is_winner hidx hwmem hrel htopw
  have hmw : m ≠ w := by
    intro he
    apply hnotwin
    intro m2 h1 h2 h3
    exact he ▸ hwin m2 h1 (by rw [← he]; exact h2) (by rw [← he]; exact h3)
  have hidxne : m.csvIndex ≠ w.csvIndex := by
    have hsym : Symmetric (fun a b : ColumnMapping => a.csvIndex ≠ b.csvIndex) :=
      fun a b hh => Ne.symm hh
    exact List.Pairwise.forall hsym hidx hmem ((List.mem_filter.mp hwmem).1) hmw
  have hres : resolveDuplicateSuggestions ms =
      ms.map (resolveStep (winnerByFieldOf ms)) := by
    rw [resolveDuplicateSuggestions, if_neg (by simp [hdne]), if_neg (by simp [hlne])]
  rw [hres, List.getElem?_map, hm]
  simp only [Option.map_some']
  have hstep : resolveStep (winnerByFieldOf ms) m =
      { m with
        selectedField :=
          if m.selectedField = some pm.systemFieldId then none
          else m.selectedField
        suggestedMatches := []
        isCustomField := false } := by
    rw [resolveStep, hpm]
    dsimp only
    rw [hwb]
    dsimp only
    rw [if_neg hidxne]
  rw [hstep]
  refine ⟨rfl, rfl, ?_⟩
  rw [topFieldId_eq_some hpm]

/-- Witness for `claim1_amended` at the C1 counterexample input. -/
theorem claim1_amended_witness :
    ((resolveDuplicateSuggestions
        [⟨"A", 0, none, [⟨"f", "F", Confidence.low, 50, "r"⟩], false, []⟩,
         ⟨"B", 1, some "f", [⟨"f", "F", Confidence.low, 30, "r"⟩], false, []⟩])[1]?).map
        ColumnMapping.suggestedMatches = some [] ∧
      ((resolveDuplicateSuggestions
        [⟨"A", 0, none, [⟨"f", "F", Confidence.low, 50, "r"⟩], false, []⟩,
         ⟨"B", 1, some "f", [⟨"f", "F", Confidence.low, 30, "r"⟩], false, []⟩])[1]?).map
        ColumnMapping.isCustomField = some false ∧
      ((resolveDuplicateSuggestions
        [⟨"A", 0, none, [⟨"f", "F", Confidence.low, 50, "r"⟩], false, []⟩,
         ⟨"B", 1, some "f", [⟨"f", "F", Confidence.low, 30, "r"⟩], false, []⟩])[1]?).map
        ColumnMapping.selectedField =
        some (if (some "f" : Option String) =
            topFieldId ⟨"B", 1, some "f",
              [⟨"f", "F", Confidence.low, 30, "r"⟩], false, []⟩ then none
          else some "f") :=
  claim1_amended _ (by decide) 1
    ⟨"B", 1, some "f", [⟨"f", "F", Confidence.low, 30, "r"⟩], false, []⟩
    (by decide) (by decide)

/-! ### Claim C6: single assignment and single top suggestion -/

theorem mapColumnsGo_selected_inv (fields : List ContactField)
    (dateParses numFinite : String → Bool) (sampleData : List (List String)) :
    ∀ (rest : List String) (index : ℕ) (claimed : List String),
      (∀ cm ∈ mapColumnsGo fields dateParses numFinite sampleData rest index claimed,
        ∀ fid, cm.selectedField = some fid → fid ∉ claimed) ∧
      List.Pairwise
        (fun a b => ∀ fid, a.selectedField = some fid → b.selectedField ≠ some fid)
        (mapColumnsGo fields dateParses numFinite sampleData rest index claimed) := by
  intro rest
  induction rest with
  | nil =>
    intro index claimed
    rw [mapColumnsGo]
    exact ⟨fun cm h => absurd h (List.not_mem_nil cm), List.Pairwise.nil⟩
  | cons header rest ih =>
    intro index claimed
    rw [mapColumnsGo]
    cases hh : (findMatches fields dateParses numFinite header
        (sampleData.map (fun row => row.getD index ""))).head? with
    | none =>
      simp only [hh]
      obtain ⟨ih1, ih2⟩ := ih (index + 1) claimed
      constructor
      · intro cm hcm fid hfid
        rcases List.mem_cons.mp hcm with h1 | h1
        · rw [h1] at hfid
          simp at hfid
        · exact ih1 cm h1 fid hfid
      · refine List.Pairwise.cons ?_ ih2
        intro b _ fid hfid
        simp at hfid
    | some bestMatch =>
      simp only [hh]
      by_cases hc : (bestMatch.confidence = Confidence.high &&
          !claimed.contains bestMatch.systemFieldId) = true
      · rw [if_pos hc]
        obtain ⟨ih1, ih2⟩ := ih (index + 1) (bestMatch.systemFieldId :: claimed)
        have hnot : bestMatch.systemFieldId ∉ claimed := by
          rw [Bool.and_eq_true] at hc
          have h2 := hc.2
          simp only [Bool.not_eq_true'] at h2
          simpa using h2
        constructor
        · intro cm hcm fid hfid
          rcases List.mem_cons.mp hcm with h1 | h1
          · rw [h1] at hfid
            simp only [Option.some.injEq] at hfid
            rw [← hfid]
            exact hnot
          · have := ih1 cm h1 fid hfid
            exact fun hmem => this (List.mem_cons_of_mem _ hmem)
        · refine List.Pairwise.cons ?_ ih2
          intro b hb fid hfid hbf
          have := ih1 b hb fid hbf
          simp only [Option.some.injEq] at hfid
          rw [← hfid] at this
          exact this (List.mem_cons_self _ _)
      · rw [if_neg hc]
        obtain ⟨ih1, ih2⟩ := ih (index + 1) claimed
        constructor
        · intro cm hcm fid hfid
          rcases List.mem_cons.mp hcm with h1 | h1
          · rw [h1] at hfid
            simp at hfid
          · exact ih1 cm h1 fid hfid
        · refine List.Pairwise.cons ?_ ih2
          intro b _ fid hfid
          simp at hfid

/-- The resolver step can only keep or clear a top suggestion, never
introduce one: a top field of the output was the top field of the
input. -/
theorem resolveStep_top_eq {wbf : List (String × ℤ)} {m : ColumnMapping}
    {fid : String} (h : topFieldId (resolveStep wbf m) = some fid) :
    topFieldId m = some fid ∧ (resolveStep wbf m).suggestedMatches =
      m.suggestedMatches := by
  rw [resolveStep] at h ⊢
  cases hpm : m.suggestedMatches.head? with
  | none =>
    rw [hpm] at h
    dsimp only at h ⊢
    exact ⟨h, rfl⟩
  | some primaryMatch =>
    rw [hpm] at h
    dsimp only at h ⊢
    cases hlk : wbf.lookup primaryMatch.systemFieldId with
    | none =>
      rw [hlk] at h
      dsimp only at h ⊢
      exact ⟨h, rfl⟩
    | some winnerIndex =>
      rw [hlk] at h
      dsimp only at h ⊢
      by_cases hw : m.csvIndex = winnerIndex
      · rw [if_pos hw] at h ⊢
        by_cases hcc : primaryMatch.confidence = Confidence.high ∧
            m.selectedField ≠ some primaryMatch.systemFieldId
        · rw [if_pos hcc] at h ⊢
          exact ⟨h, rfl⟩
        · rw [if_neg hcc] at h ⊢
          exact ⟨h, rfl⟩
      · rw [if_neg hw] at h
        exact absurd h (by simp [topFieldId, topMatch])

theorem resolveStep_top_some_winner {wbf : List (String × ℤ)}
    {m : ColumnMapping} {pm : FieldMatch} {fid : String} {wIdx : ℤ}
    (hpm : m.suggestedMatches.head? = some pm)
    (hlk : wbf.lookup pm.systemFieldId = some wIdx)
    (h : topFieldId (resolveStep wbf m) = some fid) : m.csvIndex = wIdx := by
  rw [resolveStep, hpm] at h
  dsimp only at h
  rw [hlk] at h
  dsimp only at h
  by_cases hw : m.csvIndex = wIdx
  · exact hw
  · rw [if_neg hw] at h
    exact absurd h (by simp [topFieldId, topMatch])

/-- C6, counterexample: part (b) fails for arbitrary mapping lists.
With two mappings that share `csvIndex = 0` and the same top field
`"f"`, the loser's `csvIndex` equals the winner's, so both take the
winner branch and both keep `"f"` as their top suggestion. -/
theorem claim6_counterexample :
    resolveDuplicateSuggestions
        [⟨"A", 0, none, [⟨"f", "F", Confidence.low, 50, "r"⟩], false, []⟩,
         ⟨"B", 0, none, [⟨"f", "F", Confidence.low, 30, "r"⟩], false, []⟩] =
      [⟨"A", 0, none, [⟨"f", "F", Confidence.low, 50, "r"⟩], false, []⟩,
       ⟨"B", 0, none, [⟨"f", "F", Confidence.low, 30, "r"⟩], false, []⟩] ∧
    topFieldId ⟨"A", 0, none, [⟨"f", "F", Confidence.low, 50, "r"⟩], false, []⟩ =
      some "f" ∧
    topFieldId ⟨"B", 0, none, [⟨"f", "F", Confidence.low, 30, "r"⟩], false, []⟩ =
      some "f" ∧
    (⟨"A", 0, none, [⟨"f", "F", Confidence.low, 50, "r"⟩], false, []⟩ :
      ColumnMapping) ≠
      ⟨"B", 0, none, [⟨"f", "F", Confidence.low, 30, "r"⟩], false, []⟩ := by
  refine ⟨by decide, by decide, by decide, by decide⟩

/-- C6, amended: (a) `mapColumns` never assigns the same field id as the
non-null `selectedField` of two distinct columns; (b) after
`resolveDuplicateSuggestions` is applied to a list of column mappings
with pairwise-distinct `csvIndex`es (as `mapColumns` always produces),
no field id is the top suggested match of two distinct columns.  (The
distinctness hypothesis is necessary: see the counterexample, where two
mappings share a `csvIndex`.) -/
theorem claim6_uniqueness (fields : List ContactField)
    (dateParses numFinite : String → Bool) (headers : List String)
    (sampleData : List (List String)) (ms : List ColumnMapping)
    (hidx : ms.Pairwise (fun a b => a.csvIndex ≠ b.csvIndex)) :
    List.Pairwise
      (fun a b => ∀ fid, a.selectedField = some fid → b.selectedField ≠ some fid)
      (mapColumns fields dateParses numFinite headers sampleData) ∧
    List.Pairwise
      (fun a b => ∀ fid, topFieldId a = some fid → topFieldId b ≠ some fid)
      (resolveDuplicateSuggestions ms) := by
  constructor
  · exact (mapColumnsGo_selected_inv fields dateParses numFinite sampleData
      headers 0 []).2
  · have hsym : Symmetric (fun a b : ColumnMapping => a.csvIndex ≠ b.csvIndex) :=
      fun a b hh => Ne.symm hh
    have hkey : ∀ a ∈ ms, ∀ b ∈ ms, a.csvIndex ≠ b.csvIndex →
        ∀ fid, topFieldId a = some fid → topFieldId b = some fid →
          (duplicatesOf ms).isEmpty = false ∧ (loserIndicesOf ms).isEmpty = false := by
      intro a ha b hb hne fid htopa htopb
      obtain ⟨pm, hpm⟩ : ∃ pm, a.suggestedMatches.head? = some pm := by
        cases hp : a.suggestedMatches.head? with
        | none =>
          rw [topFieldId, topMatch, hp] at htopa
          exact absurd htopa (by simp)
        | some pm => exact ⟨pm, rfl⟩
      have hba : b ≠ a := fun he => hne (by rw [he])
      obtain ⟨_, _, _, _, _, _, _, hdne, hlne⟩ :=
        resolve_main_facts ha hpm ⟨b, hb, hba, by rw [htopa, htopb]⟩
      exact ⟨hdne, hlne⟩
    by_cases h1 : (duplicatesOf ms).isEmpty = true
    · rw [resolveDuplicateSuggestions, if_pos h1]
      apply List.Pairwise.imp_of_mem ?_ hidx
      intro a b ha hb hne fid htopa htopb
      exact absurd ((hkey a ha b hb hne fid htopa htopb).1) (by simp [h1])
    · by_cases h2 : (loserIndicesOf ms).isEmpty = true
      · rw [resolveDuplicateSuggestions, if_neg h1, if_pos h2]
        apply List.Pairwise.imp_of_mem ?_ hidx
        intro a b ha hb hne fid htopa htopb
        exact absurd ((hkey a ha b hb hne fid htopa htopb).2) (by simp [h2])
      · rw [resolveDuplicateSuggestions, if_neg h1, if_neg h2]
        rw [List.pairwise_map]
        apply List.Pairwise.imp_of_mem ?_ hidx
        intro a b ha hb hne fid htopa htopb
        obtain ⟨htopa2, _⟩ := resolveStep_top_eq htopa
        obtain ⟨htopb2, _⟩ := resolveStep_top_eq htopb
        obtain ⟨pma, hpma⟩ : ∃ pm, a.suggestedMatches.head? = some pm := by
          cases hp : a.suggestedMatches.head? with
          | none =>
            rw [topFieldId, topMatch, hp] at htopa2
            exact absurd htopa2 (by simp)
          | some pm => exact ⟨pm, rfl⟩
        obtain ⟨pmb, hpmb⟩ : ∃ pm, b.suggestedMatches.head? = some pm := by
          cases hp : b.suggestedMatches.head? with
          | none =>
            rw [topFieldId, topMatch, hp] at htopb2
            exact absurd htopb2 (by simp)
          | some pm => exact ⟨pm, rfl⟩
        have hpma_id : pma.systemFieldId = fid := by
          have := topFieldId_eq_some hpma
          rw [this] at htopa2
          exact Option.some.inj htopa2
        have hpmb_id : pmb.systemFieldId = fid := by
          have := topFieldId_eq_some hpmb
          rw [this] at htopb2
          exact Option.some.inj htopb2
        have hba : b ≠ a := fun he => hne (by rw [he])
        obtain ⟨w, rest, _, _, _, _, hwb, _, _⟩ :=
          resolve_main_facts ha hpma ⟨b, hb, hba, by rw [htopa2, htopb2]⟩
        have hia : a.csvIndex = w.csvIndex :=
          resolveStep_top_some_winner hpma hwb htopa
        have hib : b.csvIndex = w.csvIndex :=
          resolveStep_top_some_winner hpmb (by rw [hpmb_id, ← hpma_id]; exact hwb)
            htopb
        exact hne (hia.trans hib.symm)

/-- Witness for `claim6_uniqueness` at a concrete input with distinct
column indexes. -/
theorem claim6_uniqueness_witness :
    List.Pairwise
      (fun a b => ∀ fid, a.selectedField = some fid → b.selectedField ≠ some fid)
      (mapColumns [] (fun _ => false) (fun _ => false) ["h"] []) ∧
    List.Pairwise
      (fun a b => ∀ fid, topFieldId a = some fid → topFieldId b ≠ some fid)
      (resolveDuplicateSuggestions
        [⟨"A", 0, none, [⟨"f", "F", Confidence.low, 50, "r"⟩], false, []⟩,
         ⟨"B", 1, some "f", [⟨"f", "F", Confidence.low, 30, "r"⟩], false, []⟩]) :=
  claim6_uniqueness [] (fun _ => false) (fun _ => false) ["h"] []
    [⟨"A", 0, none, [⟨"f", "F", Confidence.low, 50, "r"⟩], false, []⟩,
     ⟨"B", 1, some "f", [⟨"f", "F", Confidence.low, 30, "r"⟩], false, []⟩]
    (by decide)

/-! ### Claims C8 and C9: the agent email detector -/

/-- Column `j` qualifies: it has a non-blank header and its combined
score reaches `MINIMUM_CONFIDENCE`. -/
def Qualifies (headers : List String) (rowMatrix : List (List String))
    (j : ℕ) : Prop :=
  ∃ h, headers[j]? = some h ∧ (jsTrim h).isEmpty = false ∧
    MINIMUM_CONFIDENCE ≤ combinedScoreAt rowMatrix h j

/-- The loop invariant of `detectAgentEmailColumn`: after processing
columns `0..n-1`, `best` is `none` iff none of them qualifies, and
otherwise records the earliest column with the strictly highest
combined score among the qualifying ones. -/
def BestInv (headers : List String) (rowMatrix : List (List String))
    (n : ℕ) : Option AgentEmailDetectionResult → Prop
  | none => ∀ j, j < n → ¬ Qualifies headers rowMatrix j
  | some r =>
      r.index < n ∧
      headers[r.index]? = some r.header ∧
      (jsTrim r.header).isEmpty = false ∧
      r.score = combinedScoreAt rowMatrix r.header r.index ∧
      MINIMUM_CONFIDENCE ≤ r.score ∧
      r.headerScore = scoreHeader r.header ∧
      r.patternScore = patternScoreAt rowMatrix r.index ∧
      (∀ j, j < n → ∀ h, headers[j]? = some h → (jsTrim h).isEmpty = false →
        MINIMUM_CONFIDENCE ≤ combinedScoreAt rowMatrix h j →
          combinedScoreAt rowMatrix h j ≤ r.score) ∧
      (∀ j, j < r.index → ∀ h, headers[j]? = some h →
        (jsTrim h).isEmpty = false →
        MINIMUM_CONFIDENCE ≤ combinedScoreAt rowMatrix h j →
          combinedScoreAt rowMatrix h j < r.score)

theorem detectGo_inv (rowMatrix : List (List String)) (headers : List String) :
    ∀ (rest : List String) (n : ℕ) (best : Option AgentEmailDetectionResult),
      headers.drop n = rest → BestInv headers rowMatrix n best →
      BestInv headers rowMatrix (n + rest.length)
        (detectGo rowMatrix rest n best) := by
  intro rest
  induction rest with
  | nil =>
    intro n best _ hinv
    rw [detectGo]
    simpa using hinv
  | cons header rest ih =>
    intro n best hdrop hinv
    have hhn : headers[n]? = some header := by
      rw [← List.head?_drop, hdrop]
      rfl
    have hdrop1 : headers.drop (n + 1) = rest := by
      rw [← List.drop_drop, hdrop, List.drop_one]
      rfl
    have harith : n + (header :: rest).length = (n + 1) + rest.length := by
      simp [List.length_cons]
      omega
    rw [detectGo, harith]
    apply ih (n + 1) _ hdrop1
    by_cases hblank : (jsTrim header).isEmpty = true
    · rw [if_pos hblank]
      have hnoqual : ¬ Qualifies headers rowMatrix n := by
        rintro ⟨h, hh, hne, _⟩
        rw [hhn] at hh
        rw [Option.some.injEq] at hh
        rw [← hh] at hne
        rw [hblank] at hne
        simp at hne
      cases best with
      | none =>
        intro j hj
        rcases Nat.lt_succ_iff_lt_or_eq.mp hj with hj | hj
        · exact hinv j hj
        · rw [hj]; exact hnoqual
      | some r =>
        obtain ⟨hi1, hi2, hi3, hi4, hi5, hi6, hi7, hi8, hi9⟩ := hinv
        refine ⟨Nat.lt_succ_of_lt hi1, hi2, hi3, hi4, hi5, hi6, hi7, ?_, hi9⟩
        intro j hj h hh hne hsc
        rcases Nat.lt_succ_iff_lt_or_eq.mp hj with hj | hj
        · exact hi8 j hj h hh hne hsc
        · subst hj
          exact absurd ⟨h, hh, hne, hsc⟩ hnoqual
    · rw [if_neg hblank]
      have hblank2 : (jsTrim header).isEmpty = false := by
        simpa using hblank
      by_cases hlow : combinedScoreAt rowMatrix header n < MINIMUM_CONFIDENCE
      · rw [if_pos hlow]
        have hnoqual : ¬ Qualifies headers rowMatrix n := by
          rintro ⟨h, hh, _, hsc⟩
          rw [hhn] at hh
          rw [Option.some.injEq] at hh
          rw [← hh] at hsc
          omega
        cases best with
        | none =>
          intro j hj
          rcases Nat.lt_succ_iff_lt_or_eq.mp hj with hj | hj
          · exact hinv j hj
          · rw [hj]; exact hnoqual
        | some r =>
          obtain ⟨hi1, hi2, hi3, hi4, hi5, hi6, hi7, hi8, hi9⟩ := hinv
          refine ⟨Nat.lt_succ_of_lt hi1, hi2, hi3, hi4, hi5, hi6, hi7, ?_, hi9⟩
          intro j hj h hh hne hsc
          rcases Nat.lt_succ_iff_lt_or_eq.mp hj with hj | hj
          · exact hi8 j hj h hh hne hsc
          · subst hj
            exact absurd ⟨h, hh, hne, hsc⟩ hnoqual
      · rw [if_neg hlow]
        push_neg at hlow
        cases best with
        | none =>
          refine ⟨Nat.lt_succ_self n, hhn, hblank2, rfl, hlow, rfl, rfl, ?_, ?_⟩
          · intro j hj h hh hne hsc
            rcases Nat.lt_succ_iff_lt_or_eq.mp hj with hj | hj
            · exact absurd ⟨h, hh, hne, hsc⟩ (hinv j hj)
            · subst hj
              rw [hhn] at hh
              rw [Option.some.injEq] at hh
              rw [← hh]
          · intro j hj h hh hne hsc
            exact absurd ⟨h, hh, hne, hsc⟩ (hinv j hj)
        | some b =>
          dsimp only
          obtain ⟨hi1, hi2, hi3, hi4, hi5, hi6, hi7, hi8, hi9⟩ := hinv
          by_cases hbeat : b.score < combinedScoreAt rowMatrix header n
          · rw [if_pos hbeat]
            refine ⟨Nat.lt_succ_self n, hhn, hblank2, rfl, hlow, rfl, rfl, ?_, ?_⟩
            · intro j hj h hh hne hsc
              rcases Nat.lt_succ_iff_lt_or_eq.mp hj with hj | hj
              · exact le_of_lt (lt_of_le_of_lt (hi8 j hj h hh hne hsc) hbeat)
              · subst hj
                rw [hhn] at hh
                rw [Option.some.injEq] at hh
                rw [← hh]
            · intro j hj h hh hne hsc
              have hjn : j < n := hj
              exact lt_of_le_of_lt (hi8 j hjn h hh hne hsc) hbeat
          · rw [if_neg hbeat]
            push_neg at hbeat
            refine ⟨Nat.lt_succ_of_lt hi1, hi2, hi3, hi4, hi5, hi6, hi7, ?_, hi9⟩
            intro j hj h hh hne hsc
            rcases Nat.lt_succ_iff_lt_or_eq.mp hj with hj | hj
            · exact hi8 j hj h hh hne hsc
            · subst hj
              rw [hhn] at hh
              rw [Option.some.injEq] at hh
              rw [← hh]
              exact hbeat

theorem lt_length_of_getElem? {α : Type} {l : List α} {i : ℕ} {a : α}
    (h : l[i]? = some a) : i < l.length := by
  by_contra hc
  push_neg at hc
  rw [List.getElem?_eq_none hc] at h
  simp at h

/-- The invariant holds of the detector's final result, over the whole
header list. -/
theorem detect_inv (headers : List String) (rowMatrix : List (List String)) :
    BestInv headers rowMatrix headers.length
      (detectAgentEmailColumn headers rowMatrix) := by
  rw [detectAgentEmailColumn]
  by_cases he : headers.isEmpty = true
  · rw [if_pos he]
    intro j hj
    rw [List.isEmpty_iff.mp he] at hj
    simp at hj
  · rw [if_neg he]
    have := detectGo_inv rowMatrix headers headers 0 none rfl
      (fun j hj => absurd hj (Nat.not_lt_zero j))
    simpa using this

/-- C8: `detectAgentEmailColumn` returns `none` exactly when no column
with a non-blank header reaches a combined score of
`MINIMUM_CONFIDENCE = 45`; otherwise it returns the earliest-indexed
column attaining the strictly highest combined score among those
reaching 45 (first seen wins ties), together with that combined
score. -/
theorem claim8_detector (headers : List String) (rowMatrix : List (List String)) :
    (detectAgentEmailColumn headers rowMatrix = none ↔
      ∀ j h, headers[j]? = some h → (jsTrim h).isEmpty = false →
        combinedScoreAt rowMatrix h j < MINIMUM_CONFIDENCE) ∧
    (∀ r, detectAgentEmailColumn headers rowMatrix = some r →
      headers[r.index]? = some r.header ∧
      r.score = combinedScoreAt rowMatrix r.header r.index ∧
      MINIMUM_CONFIDENCE ≤ r.score ∧
      (∀ j h, headers[j]? = some h → (jsTrim h).isEmpty = false →
        MINIMUM_CONFIDENCE ≤ combinedScoreAt rowMatrix h j →
          combinedScoreAt rowMatrix h j ≤ r.score) ∧
      (∀ j, j < r.index → ∀ h, headers[j]? = some h →
        (jsTrim h).isEmpty = false →
        MINIMUM_CONFIDENCE ≤ combinedScoreAt rowMatrix h j →
          combinedScoreAt rowMatrix h j < r.score)) := by
  have hfull := detect_inv headers rowMatrix
  constructor
  · constructor
    · intro hnone j h hh hne
      rw [hnone] at hfull
      by_contra hge
      push_neg at hge
      exact hfull j (lt_length_of_getElem? hh) ⟨h, hh, hne, hge⟩
    · intro hall
      cases hres : detectAgentEmailColumn headers rowMatrix with
      | none => rfl
      | some r =>
        rw [hres] at hfull
        obtain ⟨_, hi2, hi3, hi4, hi5, _, _, _, _⟩ := hfull
        have := hall r.index r.header hi2 hi3
        rw [← hi4] at this
        omega
  · intro r hres
    rw [hres] at hfull
    obtain ⟨_, hi2, hi3, hi4, hi5, _, _, hi8, hi9⟩ := hfull
    refine ⟨hi2, hi4, hi5, ?_, hi9⟩
    intro j h hh hne hsc
    exact hi8 j (lt_length_of_getElem? hh) h hh hne hsc

/-- C9: a non-null detection result is well-formed: score at least 45,
index in range, header equal to the list entry at that index, and
non-blank after trimming. -/
theorem claim9_result_valid (headers : List String)
    (rowMatrix : List (List String)) (r : AgentEmailDetectionResult)
    (hres : detectAgentEmailColumn headers rowMatrix = some r) :
    45 ≤ r.score ∧ r.index < headers.length ∧
      headers[r.index]? = some r.header ∧ (jsTrim r.header).isEmpty = false := by
  have hfull := detect_inv headers rowMatrix
  rw [hres] at hfull
  obtain ⟨hi1, hi2, hi3, _, hi5, _, _, _, _⟩ := hfull
  exact ⟨hi5, hi1, hi2, hi3⟩

/-- `roundDouble` fixes zero. -/
theorem roundDouble_zero : roundDouble 0 = 0 := by
  rw [roundDouble, if_pos rfl]

/-- `rne` rounds down when the fractional part, exhibited by a floor
bracket `f ≤ x < f + 1`, is below one half. -/
theorem rne_eq_low (x : ℚ) (f : ℤ) (h1 : (f : ℚ) ≤ x) (h2 : x < f + 1)
    (hr : x - f < 1/2) : rne x = f := by
  have hfl : ⌊x⌋ = f := Int.floor_eq_iff.mpr ⟨h1, h2⟩
  rw [rne]
  simp only [hfl]
  rw [if_pos hr]

/-- `rne` rounds up when the fractional part, exhibited by a floor
bracket `f ≤ x < f + 1`, exceeds one half. -/
theorem rne_eq_high (x : ℚ) (f : ℤ) (h1 : (f : ℚ) ≤ x) (h2 : x < f + 1)
    (hr : 1/2 < x - f) : rne x = f + 1 := by
  have hfl : ⌊x⌋ = f := Int.floor_eq_iff.mpr ⟨h1, h2⟩
  rw [rne]
  simp only [hfl]
  rw [if_neg (by linarith), if_pos hr]

/-- Evaluation rule for `roundDouble` on a positive rational whose
binary exponent `e ≥ -1022` is exhibited by the bounds
`2^e ≤ q < 2^(e+1)`. -/
theorem roundDouble_eq (q : ℚ) (e : ℤ) (he : -1022 ≤ e)
    (h1 : (2 : ℚ) ^ e ≤ q) (h2 : q < (2 : ℚ) ^ (e + 1)) :
    roundDouble q = rne (q / 2 ^ (e - 52)) * 2 ^ (e - 52) := by
  have hq : 0 < q := lt_of_lt_of_le (by positivity) h1
  have hcast : ((2 : ℕ) : ℚ) = (2 : ℚ) := by norm_num
  have hlow : (2 : ℚ) ^ Int.log 2 q ≤ q := by
    have := Int.zpow_log_le_self (R := ℚ) (by norm_num : (1 : ℕ) < 2) hq
    rwa [hcast] at this
  have hhigh : q < (2 : ℚ) ^ (Int.log 2 q + 1) := by
    have := Int.lt_zpow_succ_log_self (R := ℚ) (by norm_num : (1 : ℕ) < 2) q
    rwa [hcast] at this
  have hle1 : Int.log 2 q ≤ e := by
    have hlt : (2 : ℚ) ^ Int.log 2 q < (2 : ℚ) ^ (e + 1) := lt_of_le_of_lt hlow h2
    have := (zpow_lt_zpow_iff_right₀ (by norm_num : (1 : ℚ) < 2)).mp hlt
    omega
  have hle2 : e ≤ Int.log 2 q := by
    have hlt : (2 : ℚ) ^ e < (2 : ℚ) ^ (Int.log 2 q + 1) := lt_of_le_of_lt h1 hhigh
    have := (zpow_lt_zpow_iff_right₀ (by norm_num : (1 : ℚ) < 2)).mp hlt
    omega
  have hlog : Int.log 2 q = e := le_antisymm hle1 hle2
  rw [roundDouble, if_neg hq.ne', abs_of_pos hq, hlog, max_eq_left he,
    if_neg (not_lt.mpr hq.le)]
  show (1 : ℚ) * rne (q / 2 ^ (e - 52)) * 2 ^ (e - 52)
      = rne (q / 2 ^ (e - 52)) * 2 ^ (e - 52)
  rw [one_mul]

/-- The detector on a single `"agent email"` column with no sample rows:
header score 95, the double `95 * 0.7` is exactly `66.5`, pattern score
0, combined `round(66.5) = 67`. -/
theorem detector_concrete :
    detectAgentEmailColumn ["agent email"] [] =
      some ⟨"agent email", 0, 67, 95, 0⟩ := by
  have hs : scoreHeader "agent email" = 95 := by decide
  have hsamp : getColumnSamples [] 0 = [] := by decide
  have hp : patternScoreAt [] 0 = 0 := by
    rw [patternScoreAt, hsamp]
    norm_num
  have h95arg : (((95 : ℤ) : ℚ)) * double07
      = 299489375220137965 / 4503599627370496 := by
    rw [double07]
    norm_num
  have h95 : doubleMul ((95 : ℤ) : ℚ) double07 = 133/2 := by
    rw [doubleMul, h95arg,
      roundDouble_eq (299489375220137965 / 4503599627370496) 6 (by norm_num)
        (by norm_num) (by norm_num),
      show (299489375220137965 / 4503599627370496 : ℚ) / 2 ^ ((6 : ℤ) - 52)
          = 299489375220137965 / 64 from by norm_num,
      rne_eq_high (299489375220137965 / 64) 4679521487814655 (by norm_num)
        (by norm_num) (by norm_num)]
    norm_num
  have hzero1 : doubleMul (0 : ℚ) 100 = 0 := by
    rw [doubleMul]
    norm_num [roundDouble_zero]
  have hzero2 : doubleMul (0 : ℚ) double03 = 0 := by
    rw [doubleMul]
    norm_num [roundDouble_zero]
  have hadd : doubleAdd (133/2 : ℚ) 0 = 133/2 := by
    rw [doubleAdd,
      show (133/2 : ℚ) + 0 = 133/2 from by norm_num,
      roundDouble_eq (133/2) 6 (by norm_num) (by norm_num) (by norm_num),
      show (133/2 : ℚ) / 2 ^ ((6 : ℤ) - 52) = 4679521487814656 from by norm_num,
      rne_eq_low 4679521487814656 4679521487814656 (by norm_num) (by norm_num)
        (by norm_num)]
    norm_num
  have hc : combinedScoreAt [] "agent email" 0 = 67 := by
    rw [combinedScoreAt, hs, hp, hzero1, hzero2, h95, hadd]
    norm_num [jsRound, Int.floor_eq_iff]
  rw [detectAgentEmailColumn, if_neg (by decide), detectGo,
    if_neg (by decide), hc, if_neg (by decide), detectGo]
  rw [hs, hp]

/-- Witness for `claim8_detector` at a concrete detection. -/
theorem claim8_detector_witness :
    (["agent email"] : List String)[(0 : ℕ)]? = some "agent email" ∧
      (67 : ℤ) = combinedScoreAt [] "agent email" 0 ∧
      MINIMUM_CONFIDENCE ≤ (67 : ℤ) ∧
      (∀ j h, (["agent email"] : List String)[j]? = some h →
        (jsTrim h).isEmpty = false →
        MINIMUM_CONFIDENCE ≤ combinedScoreAt [] h j →
          combinedScoreAt [] h j ≤ (67 : ℤ)) ∧
      (∀ j, j < 0 → ∀ h, (["agent email"] : List String)[j]? = some h →
        (jsTrim h).isEmpty = false →
        MINIMUM_CONFIDENCE ≤ combinedScoreAt [] h j →
          combinedScoreAt [] h j < (67 : ℤ)) :=
  (claim8_detector ["agent email"] []).2 ⟨"agent email", 0, 67, 95, 0⟩
    detector_concrete

/-- Witness for `claim9_result_valid` at the same concrete detection. -/
theorem claim9_result_valid_witness :
    45 ≤ (67 : ℤ) ∧ (0 : ℕ) < (["agent email"] : List String).length ∧
      (["agent email"] : List String)[(0 : ℕ)]? = some "agent email" ∧
      (jsTrim "agent email").isEmpty = false :=
  claim9_result_valid ["agent email"] [] ⟨"agent email", 0, 67, 95, 0⟩
    detector_concrete

end KendalCI
